import Mathlib

/-!
Verification of the rule-based fraud-detection engine of the
`the-office-chatbot` repository.

The Python sources are shallowly embedded as follows:

* `pandas` transaction rows become the `Transaction` structure; a data frame
  becomes `DataFrame` (a row list plus a flag recording whether the optional
  `categoria` column is present, mirroring `if 'categoria' in df.columns`).
* Monetary values (Python floats) are modelled as exact rationals `ℚ`; all
  thresholds in the source are decimal literals that are exact in `ℚ`.
* Python string operations are modelled over the character list of the
  string: `pyLower` models `str.lower`, `wordsOf` models
  `str.lower().split()` (split on whitespace runs, dropping empty tokens),
  `strIn` models the substring test `needle in hay`, and `strLtB` models
  Python string comparison (lexicographic by code point).
* Python dicts keyed by insertion order (`_deduplicate_frauds`) become
  association lists updated in place (`insertFraud`).
* Number formatting inside report strings (`f"{x:.2f}"` and the percentage
  string stored under `similaridade`) is abstracted: `ratStr` renders the
  exact rational and `similaridade` stores the exact similarity value.
-/

set_option maxRecDepth 8000

deriving instance DecidableEq for Except

namespace Audit

/-- Model of Python `<` on strings restricted to one character: comparison
of code points. -/
def charLtB (c d : Char) : Bool := decide (c.toNat < d.toNat)

/-- Model of Python `<` on strings: lexicographic comparison of the
character lists by code point. -/
def listLtB : List Char → List Char → Bool
  | [], [] => false
  | [], _ :: _ => true
  | _ :: _, [] => false
  | c :: cs, d :: ds => if charLtB c d then true else if charLtB d c then false else listLtB cs ds

/-- Python string comparison `a < b`. -/
def strLtB (a b : String) : Bool := listLtB a.data b.data

/-- Contiguous-sublist test on character lists (Python `needle in hay`). -/
def isInfixB (n : List Char) : List Char → Bool
  | [] => n.isEmpty
  | c :: rest => n.isPrefixOf (c :: rest) || isInfixB n rest

/-- Python substring test `needle in hay`. -/
def strIn (needle hay : String) : Bool := isInfixB needle.data hay.data

/-- Python `str.lower()` (character-wise lowering). -/
def pyLower (s : String) : String := ⟨s.data.map Char.toLower⟩

/-- Helper for `wordsOf`: split a character list on whitespace runs,
dropping empty tokens, with an accumulator for the current word. -/
def wordsAux : List Char → List Char → List (List Char)
  | [], cur => if cur.isEmpty then [] else [cur.reverse]
  | c :: rest, cur =>
    if c.isWhitespace then
      (if cur.isEmpty then wordsAux rest [] else cur.reverse :: wordsAux rest [])
    else wordsAux rest (c :: cur)

/-- Python `s.lower().split()`: whitespace-tokenised words of the
case-folded string. -/
def wordsOf (s : String) : List String := (wordsAux (pyLower s).data []).map (fun cs => ⟨cs⟩)

/-- Python `set(s.lower().split())`. -/
def wordSet (s : String) : Finset String := (wordsOf s).toFinset

/-- `len(a & b) / len(a | b)` — the similarity ratio computed by
`_check_smurfing` (the source divides only after checking both word sets
are non-empty). -/
def similarity (a b : Finset String) : ℚ := ((a ∩ b).card : ℚ) / ((a ∪ b).card : ℚ)

/-- Jaccard index as worded by the specification: the ratio of the
intersection and union cardinalities, defined as `0` when either set is
empty. -/
def jaccard (a b : Finset String) : ℚ :=
  if a = ∅ ∨ b = ∅ then 0 else similarity a b

/-- Decimal rendering of a rational in report strings (abstraction of the
Python `f"{x:.2f}"` formatting). -/
def ratStr (q : ℚ) : String := toString q.num ++ "/" ++ toString q.den

/-- One parsed transaction row (`load_transactions` output with all text
fields present as strings; `categoria` is `none` when the optional cell is
missing). -/
structure Transaction where
  id_transacao : String
  funcionario : String
  data : String
  valor : ℚ
  descricao : String
  categoria : Option String
deriving DecidableEq

/-- A pandas data frame of transactions: the rows plus the presence of the
optional `categoria` column (`if 'categoria' in df.columns`). -/
structure DataFrame where
  rows : List Transaction
  hasCategoria : Bool
deriving DecidableEq

/-- The `transaction` dict stored in a SMURFING violation
(`_check_smurfing`): the pair of transaction ids, the shared employee and
date, the individual and total amounts, both descriptions and the
similarity value. -/
structure SmurfTx where
  id_1 : String
  id_2 : String
  funcionario : String
  data : String
  valor_total : ℚ
  valor_1 : ℚ
  valor_2 : ℚ
  descricao_1 : String
  descricao_2 : String
  similaridade : ℚ
deriving DecidableEq

/-- The `transaction` payload of a violation record: either a single row
(`row.to_dict()`) or a smurfing pair dict. -/
inductive FraudTx where
  | single (t : Transaction)
  | pair (p : SmurfTx)
deriving DecidableEq

/-- One violation record as built by the five rule checks. -/
structure Fraud where
  tx : FraudTx
  violation_type : String
  severity : Nat
  rule : String
  reason : String
  evidence : String
deriving DecidableEq

/-- The transaction id a single-transaction violation refers to (`none`
for smurfing pair violations). -/
def singleId (v : Fraud) : Option String :=
  match v.tx with
  | .single t => some t.id_transacao
  | .pair _ => none

/-- Deny-list of `_check_prohibited_items`. -/
def prohibited_keywords : List String :=
  ["mágica", "magic", "karaokê", "karaoke", "algema", "handcuff",
   "corrente", "chain", "fumaça", "smoke", "pombo", "pigeon",
   "stripper", "baralho marcado", "discoteca", "disco",
   "arma", "weapon", "gun", "airsoft", "espada", "sword", "katana",
   "ninja", "nunchaku", "spray de pimenta", "pepper spray",
   "camuflagem", "camouflage", "armadilha", "trap",
   "vela artesanal", "candle", "startup", "rede social", "social network",
   "beterraba", "beet", "binóculo", "binocular", "vigilância", "surveillance",
   "walkie talkie", "walkie-talkie"]

/-- The PROHIBITED_ITEM violation record built for a row and the matched
keyword. -/
def mkProhib (row : Transaction) (keyword : String) : Fraud where
  tx := .single row
  violation_type := "ITEM_PROIBIDO"
  severity := 9
  rule := "Seção 3 - Lista Negra de Itens"
  reason := "Compra de item proibido detectada: \"" ++ keyword ++ "\""
  evidence := "Descrição: " ++ row.descricao

/-- `_check_prohibited_items`: for each row, emit one violation for the
first deny-listed keyword occurring in the lower-cased description
(the inner loop breaks at the first hit). -/
def checkProhibitedItems : List Transaction → List Fraud
  | [] => []
  | row :: rest =>
    (match prohibited_keywords.find? (fun k => strIn k (pyLower row.descricao)) with
     | some k => [mkProhib row k]
     | none => []) ++ checkProhibitedItems rest

/-- The `$500` threshold of `_check_unauthorized_amounts`. -/
def highValueThreshold : ℚ := 500

/-- Approval markers looked up in the lower-cased description by
`_check_unauthorized_amounts` (a violation is emitted only when all three
are absent). -/
def hasApprovalMarker (dl : String) : Bool :=
  strIn "po" dl || strIn "purchase order" dl || strIn "p.o." dl

/-- The UNAUTHORIZED_AMOUNT violation record for a row. -/
def mkUnauth (row : Transaction) : Fraud where
  tx := .single row
  violation_type := "VALOR_NAO_AUTORIZADO"
  severity := 7
  rule := "Seção 1.3 - Grandes Despesas"
  reason := "Valor acima de $500 sem evidência de Purchase Order"
  evidence := "Valor: $" ++ ratStr row.valor

/-- `_check_unauthorized_amounts`: flag rows with amount above the
threshold and no approval marker in the description. -/
def checkUnauthorizedAmounts : List Transaction → List Fraud
  | [] => []
  | row :: rest =>
    (if highValueThreshold < row.valor ∧ hasApprovalMarker (pyLower row.descricao) = false
     then [mkUnauth row] else []) ++ checkUnauthorizedAmounts rest

/-- Deny-list of `_check_restricted_locations`. -/
def restricted_locations : List String := ["hooters", "hooter"]

/-- The RESTRICTED_LOCATION violation record (the `.title()` rendering of
the location inside the reason string is abstracted to the raw token). -/
def mkRestricted (row : Transaction) (location : String) : Fraud where
  tx := .single row
  violation_type := "LOCAL_RESTRITO"
  severity := 6
  rule := "Seção 2.1 - Locais Restritos"
  reason := "Refeição em local restrito: " ++ location ++ " (banido da lista de reembolso)"
  evidence := "Descrição: " ++ row.descricao

/-- `_check_restricted_locations`: first matching restricted venue wins,
one violation per matching row. -/
def checkRestrictedLocations : List Transaction → List Fraud
  | [] => []
  | row :: rest =>
    (match restricted_locations.find? (fun loc => strIn loc (pyLower row.descricao)) with
     | some loc => [mkRestricted row loc]
     | none => []) ++ checkRestrictedLocations rest

/-- The sentinel category of `_check_suspicious_categories`. -/
def suspiciousCategory : String := "Segurança"

/-- The SUSPICIOUS_CATEGORY violation record for a row. -/
def mkSusp (row : Transaction) : Fraud where
  tx := .single row
  violation_type := "CATEGORIA_SUSPEITA"
  severity := 7
  rule := "Seção 3.2 - Armamento e Defesa"
  reason := "Despesa categorizada como \"Segurança\" (possível armamento)"
  evidence := "Descrição: " ++ row.descricao ++ ", Valor: $" ++ ratStr row.valor

/-- Row scan of `_check_suspicious_categories`
(`df[df['categoria'] == 'Segurança']`): a row matches exactly when its
category cell equals the sentinel. -/
def checkSuspiciousRows : List Transaction → List Fraud
  | [] => []
  | row :: rest =>
    (if row.categoria = some suspiciousCategory then [mkSusp row] else [])
      ++ checkSuspiciousRows rest

/-- `_check_suspicious_categories`: guarded by
`if 'categoria' in df.columns`. -/
def checkSuspiciousCategories (df : DataFrame) : List Fraud :=
  if df.hasCategoria then checkSuspiciousRows df.rows else []

/-- Sort key order used by `df.sort_values(['funcionario', 'data',
'descricao'])`: lexicographic on the three string columns. -/
def txLe (a b : Transaction) : Bool :=
  if a.funcionario = b.funcionario then
    (if a.data = b.data then !(strLtB b.descricao a.descricao) else strLtB a.data b.data)
  else strLtB a.funcionario b.funcionario

/-- Ordered insertion used by `sortTx`. -/
def insertTx (t : Transaction) : List Transaction → List Transaction
  | [] => [t]
  | s :: rest => if txLe t s then t :: s :: rest else s :: insertTx t rest

/-- A sort of the rows by `(funcionario, data, descricao)`
(`df.sort_values`; pandas default quicksort is unstable, so any correct
sort is a faithful model). -/
def sortTx : List Transaction → List Transaction
  | [] => []
  | t :: rest => insertTx t (sortTx rest)

/-- First-occurrence deduplication with an explicit seen accumulator. -/
def uniqueFirstAux (seen : List String) : List String → List String
  | [] => []
  | x :: xs => if x ∈ seen then uniqueFirstAux seen xs else x :: uniqueFirstAux (x :: seen) xs

/-- pandas `Series.unique()`: the distinct values in first-occurrence
order. -/
def uniqueFirst (l : List String) : List String := uniqueFirstAux [] l

/-- All ordered index pairs `i < j` of a list, in the nested-loop order of
`_check_smurfing`. -/
def ordPairs {α : Type} : List α → List (α × α)
  | [] => []
  | x :: xs => (xs.map (fun y => (x, y))) ++ ordPairs xs

/-- `func_df`: the sorted frame filtered to one employee. -/
def funcFrame (df : List Transaction) (f : String) : List Transaction :=
  (sortTx df).filter (fun t => t.funcionario == f)

/-- `day_transactions`: the employee frame filtered to one date. -/
def dayGroup (df : List Transaction) (f d : String) : List Transaction :=
  (funcFrame df f).filter (fun t => t.data == d)

/-- One candidate pair examined by `_check_smurfing`, together with the
employee and date loop variables under which it is examined. -/
structure SmurfGroupPair where
  func : String
  date : String
  r1 : Transaction
  r2 : Transaction
deriving DecidableEq

/-- The full stream of candidate pairs examined by `_check_smurfing`:
employees in first-occurrence order of the original frame, dates in
first-occurrence order of the sorted employee frame, then all ordered
pairs of that day group. -/
def smurfQuads (df : List Transaction) : List SmurfGroupPair :=
  (uniqueFirst (df.map (fun t => t.funcionario))).flatMap (fun f =>
    (uniqueFirst ((funcFrame df f).map (fun t => t.data))).flatMap (fun d =>
      (ordPairs (dayGroup df f d)).map (fun p => ⟨f, d, p.1, p.2⟩)))

/-- `tuple(sorted([id1, id2]))`: the order-independent pair key used by
`detected_pairs` inside `_check_smurfing`. -/
def pairKey (a b : String) : String × String :=
  if strLtB b a then (b, a) else (a, b)

/-- The flagging condition of `_check_smurfing`: both word sets non-empty,
similarity strictly above `0.6`, both amounts within `[300, 500]`, and the
sum strictly above `500`. -/
def smurfCondB (r1 r2 : Transaction) : Bool :=
  let w1 := wordSet r1.descricao
  let w2 := wordSet r2.descricao
  decide (w1 ≠ ∅) && decide (w2 ≠ ∅) &&
  decide ((0.6 : ℚ) < similarity w1 w2) &&
  decide ((300 : ℚ) ≤ r1.valor) && decide (r1.valor ≤ 500) &&
  decide ((300 : ℚ) ≤ r2.valor) && decide (r2.valor ≤ 500) &&
  decide ((500 : ℚ) < r1.valor + r2.valor)

/-- The flagging condition in the words of the specification: Jaccard
similarity of the case-folded whitespace-tokenised word sets strictly
above `0.6` (with the Jaccard index defined as `0` when either set is
empty), both amounts within `[300, 500]` inclusive, and the sum strictly
above `500`. -/
def smurfSpec (t1 t2 : Transaction) : Prop :=
  (0.6 : ℚ) < jaccard (wordSet t1.descricao) (wordSet t2.descricao) ∧
  (300 : ℚ) ≤ t1.valor ∧ t1.valor ≤ 500 ∧
  (300 : ℚ) ≤ t2.valor ∧ t2.valor ≤ 500 ∧
  (500 : ℚ) < t1.valor + t2.valor

/-- The SMURFING violation record built from the loop variables and the
two rows (the formatted percentage and dollar strings of the source are
abstracted to the exact rational values). -/
def mkSmurf (f d : String) (r1 r2 : Transaction) : Fraud where
  tx := .pair
    { id_1 := r1.id_transacao
      id_2 := r2.id_transacao
      funcionario := f
      data := d
      valor_total := r1.valor + r2.valor
      valor_1 := r1.valor
      valor_2 := r2.valor
      descricao_1 := r1.descricao
      descricao_2 := r2.descricao
      similaridade := similarity (wordSet r1.descricao) (wordSet r2.descricao) }
  violation_type := "SMURFING"
  severity := 10
  rule := "Seção 1.3 - Proibição de Smurfing"
  reason := "Possível estruturação: duas compras similares no mesmo dia"
  evidence := "TX1: " ++ r1.id_transacao ++ " + TX2: " ++ r2.id_transacao

/-- The scan of `_check_smurfing` over the candidate-pair stream,
threading the `detected_pairs` set and the accumulated violation list. -/
def smurfScan : List SmurfGroupPair → List (String × String) → List Fraud →
    List (String × String) × List Fraud
  | [], detected, out => (detected, out)
  | q :: rest, detected, out =>
    let k := pairKey q.r1.id_transacao q.r2.id_transacao
    if k ∈ detected then smurfScan rest detected out
    else if smurfCondB q.r1 q.r2 then
      smurfScan rest (k :: detected) (out ++ [mkSmurf q.func q.date q.r1 q.r2])
    else smurfScan rest detected out

/-- `_check_smurfing`. -/
def checkSmurfing (df : List Transaction) : List Fraud :=
  (smurfScan (smurfQuads df) [] []).2

/-- The pair key of a SMURFING violation, as the order-independent sorted
pair described by the specification (`none` for single-row violations). -/
def smurfIds (v : Fraud) : Option (String × String) :=
  match v.tx with
  | .single _ => none
  | .pair p => some (pairKey p.id_1 p.id_2)

/-- The grouping key of `_deduplicate_frauds`:
`tx.get('id_transacao', tx.get('id_1', ...))` — the row id for single
violations and the FIRST id of the pair for smurfing violations. -/
def dedupKey (v : Fraud) : String :=
  match v.tx with
  | .single t => t.id_transacao
  | .pair p => p.id_1

/-- One dict update of `_deduplicate_frauds`: insert under the key if
absent, overwrite in place only when the new severity is strictly
greater. -/
def insertFraud (f : Fraud) : List (String × Fraud) → List (String × Fraud)
  | [] => [(dedupKey f, f)]
  | (k, g) :: rest =>
    if dedupKey f = k then
      (if g.severity < f.severity then (k, f) else (k, g)) :: rest
    else (k, g) :: insertFraud f rest

/-- `_deduplicate_frauds`: fold the violations into an insertion-ordered
dict and return its values. -/
def dedupFrauds (fs : List Fraud) : List Fraud :=
  (fs.foldl (fun acc f => insertFraud f acc) []).map Prod.snd

/-- `analyze_transactions`: run the five checks in their fixed order,
concatenate, deduplicate. -/
def analyzeTransactions (df : DataFrame) : List Fraud :=
  dedupFrauds
    (checkProhibitedItems df.rows ++ checkUnauthorizedAmounts df.rows ++
     checkSmurfing df.rows ++ checkRestrictedLocations df.rows ++
     checkSuspiciousCategories df)

/-- A raw delimited-text table as read by `pd.read_csv`: a header row and
data rows of cells. -/
structure CSV where
  header : List String
  rows : List (List String)
deriving DecidableEq

/-- A raw transaction row after `load_transactions`: only `valor` and
`data` are guaranteed parsed (`dropna(subset=['valor', 'data'])`); every
other cell may be missing (pandas `NaN`, modelled as `none`). -/
structure TransactionR where
  id_transacao : Option String
  funcionario : Option String
  data : String
  valor : ℚ
  descricao : Option String
  categoria : Option String
deriving DecidableEq

/-- Cell of a named column in a raw row; a structurally absent cell and an
empty field both read as pandas `NaN` (`none`). -/
def getCell (header row : List String) (col : String) : Option String :=
  (header.findIdx? (fun c => c == col)).bind
    (fun i => (row.get? i).bind (fun s => if s = "" then none else some s))

/-- The required columns validated by `load_transactions`. -/
def requiredColumns : List String :=
  ["id_transacao", "funcionario", "data", "valor", "descricao"]

/-- Parse one raw row, given the numeric parser (`pd.to_numeric` with
`errors='coerce'`) and the date parser (`pd.to_datetime` with
`errors='coerce'`); the row is kept exactly when both parses succeed. -/
def parseRowR (pv : String → Option ℚ) (pdt : String → Option String)
    (header row : List String) : Option TransactionR :=
  match (getCell header row "valor").bind pv, (getCell header row "data").bind pdt with
  | some v, some d =>
    some { id_transacao := getCell header row "id_transacao"
           funcionario := getCell header row "funcionario"
           data := d
           valor := v
           descricao := getCell header row "descricao"
           categoria := getCell header row "categoria" }
  | _, _ => none

/-- `load_transactions`: validate the required columns (raising
`ValueError` with the missing-column list otherwise, modelled as
`Except.error`), parse the `valor` and `data` columns, and drop the rows
where either parse failed. -/
def loadTransactionsR (pv : String → Option ℚ) (pdt : String → Option String)
    (csv : CSV) : Except (List String) (List TransactionR) :=
  let missing := requiredColumns.filter (fun c => !(csv.header.contains c))
  if missing.isEmpty then
    Except.ok
      ((((csv.rows.map (fun r =>
            (r, (getCell csv.header r "valor").bind pv, (getCell csv.header r "data").bind pdt))).filter
          (fun x => x.2.1.isSome && x.2.2.isSome)).filterMap
        (fun x => parseRowR pv pdt csv.header x.1)))
  else Except.error missing

/-- The Python error raised by `row['descricao'].lower()` when the cell is
pandas `NaN` (a float). -/
def attrErrMsg : String := "AttributeError: float object has no attribute lower"

/-- `_check_prohibited_items` run on raw loader output: iterating the
rows, `row['descricao'].lower()` raises `AttributeError` at the first row
whose description cell is `NaN`; otherwise the first matching keyword of
each row is collected. -/
def checkProhibitedItemsR : List TransactionR → Except String (List String)
  | [] => Except.ok []
  | t :: rest =>
    match t.descricao with
    | none => Except.error attrErrMsg
    | some d =>
      match prohibited_keywords.find? (fun k => strIn k (pyLower d)) with
      | some k => (checkProhibitedItemsR rest).map (fun l => k :: l)
      | none => checkProhibitedItemsR rest

/-- Toy numeric parser used to instantiate witness inputs (`pd.to_numeric`
stand-in): parses decimal natural-number strings. -/
def pv0 (s : String) : Option ℚ := (s.toNat?).map (fun n => (n : ℚ))

/-- Toy date parser used to instantiate witness inputs (`pd.to_datetime`
stand-in): any non-empty cell parses to itself. -/
def pd0 (s : String) : Option String := if s = "" then none else some s

/-- One parsed email of `load_emails`. -/
structure Email where
  remetente : String
  destinatario : String
  assunto : String
  data : String
  mensagem : String
deriving DecidableEq

/-- The structured judgment parsed from a collaborator response in
`_analyze_email_for_fraud_coordination`; each key may be absent from the
returned JSON object. -/
structure ParsedJudgment where
  is_fraud : Option Bool
  severity : Option Nat
  reason : Option String
  evidence : Option String
deriving DecidableEq

/-- One contextual fraud record appended by `_detect_coordinated_fraud`. -/
structure CFraud where
  email : Email
  analysis : ParsedJudgment
  violation_type : String
  severity : Nat
  evidence : String
  reason : String
deriving DecidableEq

/-- Python `str.strip()`: drop leading and trailing whitespace. -/
def pyStrip (s : String) : String :=
  ⟨((s.data.dropWhile Char.isWhitespace).reverse.dropWhile Char.isWhitespace).reverse⟩

/-- Python `str.split('\n')` on a character list (empty pieces kept). -/
def splitNl : List Char → List Char → List (List Char)
  | [], cur => [cur.reverse]
  | c :: rest, cur =>
    if c = '\n' then cur.reverse :: splitNl rest [] else splitNl rest (c :: cur)

/-- Python `'\n'.join(...)` on character lists. -/
def joinNl : List (List Char) → List Char
  | [] => []
  | [x] => x
  | x :: xs => x ++ '\n' :: joinNl xs

/-- Python `str.replace(needle, repl)` on character lists, for a non-empty
needle. -/
def replaceL (n r : List Char) : List Char → List Char
  | [] => []
  | c :: rest =>
    if h : n.isPrefixOf (c :: rest) ∧ n ≠ [] then r ++ replaceL n r ((c :: rest).drop n.length)
    else c :: replaceL n r rest
termination_by l => l.length
decreasing_by
  · have hn : 0 < n.length := List.length_pos.mpr h.2
    simp only [List.length_drop, List.length_cons]
    omega
  · simp only [List.length_cons]
    omega

/-- Response cleanup of `_analyze_email_for_fraud_coordination`: strip,
drop the first and last line of a fenced block, remove the fence markers,
strip again. -/
def cleanResponse (s : String) : String :=
  let c := pyStrip s
  if "```".data.isPrefixOf c.data then
    let lines := splitNl c.data []
    let c2 := if lines.length > 2 then joinNl ((lines.drop 1).dropLast) else c.data
    pyStrip ⟨replaceL "```".data [] (replaceL "```json".data [] c2)⟩
  else c

/-- `_analyze_email_for_fraud_coordination` at the parsing boundary: one
`generate` call produced `response`; the cleaned response is handed to
`json.loads` (the abstract `parse`), and a parse failure returns `None` —
there is no second call. -/
def analyzeEmailForFraudCoordination (parse : String → Option ParsedJudgment)
    (response : String) : Option ParsedJudgment :=
  parse (cleanResponse response)

/-- Keyword filter of `_detect_coordinated_fraud`. -/
def coord_suspicious_keywords : List String :=
  ["compra", "purchase", "aprovação", "approval", "autorização", "authorization",
   "$", "valor", "amount", "despesa", "expense", "reembolso", "reimbursement",
   "dividir", "split", "juntos", "together", "combinar", "combine"]

/-- An email passes the pre-filter of `_detect_coordinated_fraud`. -/
def isSuspiciousEmail (e : Email) : Bool :=
  coord_suspicious_keywords.any (fun k => strIn k (pyLower e.mensagem))

/-- The contextual fraud record built from an email and a parsed judgment
(`analysis.get(...)` defaults applied). -/
def mkCFraud (e : Email) (a : ParsedJudgment) : CFraud where
  email := e
  analysis := a
  violation_type := "FRAUDE_COORDENADA"
  severity := a.severity.getD 5
  evidence := a.evidence.getD ""
  reason := a.reason.getD ""

/-- One loop iteration of `_detect_coordinated_fraud` over a suspicious
email: one collaborator call (the oracle is indexed by the running call
count), then `if analysis and analysis.get('is_fraud', False)`. -/
def coordStep (parse : String → Option ParsedJudgment) (oracle : Nat → String)
    (acc : List CFraud × Nat) (e : Email) : List CFraud × Nat :=
  match analyzeEmailForFraudCoordination parse (oracle acc.2) with
  | some a =>
    if a.is_fraud.getD false then (acc.1 ++ [mkCFraud e a], acc.2 + 1)
    else (acc.1, acc.2 + 1)
  | none => (acc.1, acc.2 + 1)

/-- `_detect_coordinated_fraud`: filter the suspicious emails, keep the
first 20, and analyse each with exactly one collaborator call; the
result is the fraud list together with the number of calls made. Emails
whose judgment fails to parse, or parses with `is_fraud` false/absent,
contribute nothing and processing continues. -/
def detectCoordinatedFraud (parse : String → Option ParsedJudgment)
    (oracle : Nat → String) (emails : List Email) : List CFraud × Nat :=
  ((emails.filter isSuspiciousEmail).take 20).foldl (coordStep parse oracle) ([], 0)

/-- Concrete row T1 of the three-row day group used to exhibit the
behaviour of the deduplication key on smurfing pairs. -/
def txA : Transaction :=
  { id_transacao := "T1", funcionario := "michael", data := "2024-05-01",
    valor := 350, descricao := "big paper supplies order batch alpha", categoria := none }

/-- Concrete row T2 of the three-row day group. -/
def txB : Transaction :=
  { id_transacao := "T2", funcionario := "michael", data := "2024-05-01",
    valor := 350, descricao := "big paper supplies order batch beta", categoria := none }

/-- Concrete row T3 of the three-row day group. -/
def txC : Transaction :=
  { id_transacao := "T3", funcionario := "michael", data := "2024-05-01",
    valor := 350, descricao := "big paper supplies order batch gamma", categoria := none }

/-- Three same-employee same-day rows whose descriptions are pairwise
`5/7`-similar: every one of the three unordered pairs satisfies the
smurfing condition. -/
def ex3 : List Transaction := [txA, txB, txC]

/-- The three-row table as a data frame without a category column. -/
def ex3df : DataFrame := { rows := ex3, hasCategoria := false }

/-- A row matching both the prohibited-item rule (severity 9) and the
suspicious-category rule (severity 7). -/
def txK : Transaction :=
  { id_transacao := "K1", funcionario := "dwight", data := "2024-05-02",
    valor := 120, descricao := "karaoke machine rental", categoria := some "Segurança" }

/-- Single-row frame with a category column, for the deduplication
tie-break witness. -/
def exKdf : DataFrame := { rows := [txK], hasCategoria := true }

/-- Witness rows for the smurfing characterization: amounts 350 and 400,
same employee and day, descriptions sharing five of six tokens. -/
def txS1 : Transaction :=
  { id_transacao := "S1", funcionario := "kevin", data := "2024-06-01",
    valor := 350, descricao := "office chili cookoff ingredients run one", categoria := none }

/-- Second witness row for the smurfing characterization. -/
def txS2 : Transaction :=
  { id_transacao := "S2", funcionario := "kevin", data := "2024-06-01",
    valor := 400, descricao := "office chili cookoff ingredients run two", categoria := none }

/-- Two-row witness table for the smurfing characterization. -/
def exS : List Transaction := [txS1, txS2]

/-- Witness row for the unauthorized-amount rule: amount 650, no approval
marker. -/
def txU : Transaction :=
  { id_transacao := "U1", funcionario := "jim", data := "2024-07-01",
    valor := 650, descricao := "client dinner at fancy steakhouse", categoria := none }

/-- Well-formed CSV table for the loader witness: three rows, the second
with an unparsable amount and the third with an unparsable date. -/
def csvGood : CSV :=
  { header := ["id_transacao", "funcionario", "data", "valor", "descricao"],
    rows := [["T1", "michael", "2024-05-01", "100", "paper"],
             ["T2", "jim", "2024-05-02", "abc", "stapler"],
             ["T3", "pam", "", "70", "ink"]] }

/-- CSV table missing the required `valor` and `descricao` columns. -/
def csvBad : CSV :=
  { header := ["id_transacao", "funcionario", "data"],
    rows := [["T1", "michael", "2024-05-01"]] }

/-- CSV table whose single row has a valid amount and date but an empty
`descricao` cell (read by pandas as `NaN`). -/
def csvNaNDesc : CSV :=
  { header := ["id_transacao", "funcionario", "data", "valor", "descricao"],
    rows := [["T1", "michael", "2024-05-01", "100", ""]] }

/-- The raw row loaded from `csvNaNDesc`: valid amount and date, missing
description. -/
def tNaN : TransactionR :=
  { id_transacao := some "T1", funcionario := some "michael",
    data := "2024-05-01", valor := 100, descricao := none, categoria := none }

/-- Suspicious email used in the collaborator-boundary analysis (its
message contains the keyword `compra`). -/
def emailC : Email :=
  { remetente := "michael@dundermifflin.com", destinatario := "dwight@dundermifflin.com",
    assunto := "compras", data := "2024-05-01",
    mensagem := "vamos dividir a compra em duas partes" }

/-- A second suspicious email (keyword `reembolso`), analysed after
`emailC`. -/
def emailC2 : Email :=
  { remetente := "dwight@dundermifflin.com", destinatario := "angela@dundermifflin.com",
    assunto := "reembolso", data := "2024-05-02",
    mensagem := "o reembolso sai amanha, combinar os valores" }

/-- A parsed judgment that flags the email as fraud. -/
def goodJudgment : ParsedJudgment :=
  { is_fraud := some true, severity := some 8,
    reason := some "coordenacao", evidence := some "dividir a compra" }

/-- Concrete parse oracle: the literal `GOOD` parses to a flagged
judgment, everything else is malformed (`json.loads` raises). -/
def parse0 (s : String) : Option ParsedJudgment :=
  if s = "GOOD" then some goodJudgment else none

/-- Concrete collaborator oracle: the first response is malformed, every
later response is well-formed and flagged. -/
def oracle0 (n : Nat) : String := if n = 0 then "BAD" else "GOOD"

/-- The concatenated pre-deduplication violation list of
`analyze_transactions` on the `exKdf` frame. -/
def exKFrauds : List Fraud :=
  checkProhibitedItems exKdf.rows ++ checkUnauthorizedAmounts exKdf.rows ++
    checkSmurfing exKdf.rows ++ checkRestrictedLocations exKdf.rows ++
    checkSuspiciousCategories exKdf

/-- The insertion-ordered dict built by the fold of
`_deduplicate_frauds`. -/
def dedupAssoc (fs : List Fraud) : List (String × Fraud) :=
  fs.foldl (fun acc f => insertFraud f acc) []

/-- Lookup of a key in the dict (first matching entry). -/
def lookupK (k : String) (A : List (String × Fraud)) : Option Fraud :=
  (A.find? (fun p => p.1 == k)).map Prod.snd

/-- Sequential dict-update semantics on a single key: keep the current
holder unless the newcomer has strictly greater severity. -/
def betterF (cur : Option Fraud) (f : Fraud) : Option Fraud :=
  match cur with
  | none => some f
  | some g => if g.severity < f.severity then some f else some g

/-- Key-list effect of one dict insertion. -/
def addKey (ks : List String) (k : String) : List String :=
  if k ∈ ks then ks else ks ++ [k]


theorem charLtB_asymm {c d : Char} (h : charLtB c d = true) : charLtB d c = false := by
  simp only [charLtB, decide_eq_true_eq] at h
  simp only [charLtB, decide_eq_false_iff_not]
  omega

theorem charLtB_eq {c d : Char} (h1 : charLtB c d = false) (h2 : charLtB d c = false) :
    c = d := by
  simp only [charLtB, Char.toNat, decide_eq_false_iff_not] at h1 h2
  exact Char.ext (UInt32.ext (by omega))

theorem listLtB_asymm : ∀ {cs ds : List Char}, listLtB cs ds = true → listLtB ds cs = false := by
  intro cs
  induction cs with
  | nil =>
    intro ds h
    cases ds with
    | nil => simp [listLtB] at h
    | cons d ds => simp [listLtB]
  | cons c cs ih =>
    intro ds h
    cases ds with
    | nil => simp [listLtB] at h
    | cons d ds =>
      simp only [listLtB] at h ⊢
      cases hcd : charLtB c d with
      | true =>
        rw [charLtB_asymm hcd]
        simp
      | false =>
        rw [hcd] at h
        simp only [Bool.false_eq_true, if_false] at h
        cases hdc : charLtB d c with
        | true => rw [hdc] at h; simp at h
        | false =>
          rw [hdc] at h
          simp only [Bool.false_eq_true, if_false] at h
          simpa using ih h

theorem listLtB_eq : ∀ {cs ds : List Char},
    listLtB cs ds = false → listLtB ds cs = false → cs = ds := by
  intro cs
  induction cs with
  | nil =>
    intro ds h1 _
    cases ds with
    | nil => rfl
    | cons d ds => simp [listLtB] at h1
  | cons c cs ih =>
    intro ds h1 h2
    cases ds with
    | nil => simp [listLtB] at h2
    | cons d ds =>
      simp only [listLtB] at h1 h2
      cases hcd : charLtB c d with
      | true => rw [hcd] at h1; simp at h1
      | false =>
        cases hdc : charLtB d c with
        | true => rw [hdc] at h2; simp at h2
        | false =>
          rw [hcd, hdc] at h1
          rw [hdc, hcd] at h2
          simp only [Bool.false_eq_true, if_false] at h1 h2
          rw [charLtB_eq hcd hdc, ih h1 h2]

theorem strLtB_asymm {a b : String} (h : strLtB a b = true) : strLtB b a = false :=
  listLtB_asymm h

theorem strLtB_antisymm_eq {a b : String} (h1 : strLtB a b = false) (h2 : strLtB b a = false) :
    a = b := by
  obtain ⟨da⟩ := a
  obtain ⟨db⟩ := b
  have h : da = db := listLtB_eq h1 h2
  rw [h]

theorem pairKey_comm (a b : String) : pairKey a b = pairKey b a := by
  unfold pairKey
  cases hba : strLtB b a with
  | true => rw [strLtB_asymm hba]; simp
  | false =>
    cases hab : strLtB a b with
    | true => simp
    | false => rw [strLtB_antisymm_eq hab hba]

theorem pairKey_cases (a b : String) : pairKey a b = (a, b) ∨ pairKey a b = (b, a) := by
  unfold pairKey
  split
  · exact Or.inr rfl
  · exact Or.inl rfl

theorem pairKey_eq_unordered {a b c d : String} (h : pairKey a b = pairKey c d) :
    (a = c ∧ b = d) ∨ (a = d ∧ b = c) := by
  rcases pairKey_cases a b with h1 | h1 <;> rcases pairKey_cases c d with h2 | h2 <;>
    rw [h1, h2] at h <;> simp only [Prod.mk.injEq] at h
  · exact Or.inl h
  · exact Or.inr h
  · exact Or.inr ⟨h.2, h.1⟩
  · exact Or.inl ⟨h.2, h.1⟩

theorem insertFraud_entry {f : Fraud} {A : List (String × Fraud)}
    (hA : ∀ p ∈ A, dedupKey p.2 = p.1) :
    ∀ p ∈ insertFraud f A, dedupKey p.2 = p.1 := by
  induction A with
  | nil =>
    intro p hp
    simp only [insertFraud, List.mem_singleton] at hp
    subst hp
    rfl
  | cons q rest ih =>
    obtain ⟨k, g⟩ := q
    have hg : dedupKey g = k := hA (k, g) (by simp)
    have hrest : ∀ p ∈ rest, dedupKey p.2 = p.1 := fun p hp => hA p (by simp [hp])
    intro p hp
    simp only [insertFraud] at hp
    by_cases hk : dedupKey f = k
    · rw [if_pos hk] at hp
      rcases List.mem_cons.mp hp with h | h
      · split at h
        · subst h; simpa using hk
        · subst h; simpa using hg
      · exact hrest p h
    · rw [if_neg hk] at hp
      rcases List.mem_cons.mp hp with h | h
      · subst h; simpa using hg
      · exact ih hrest p h

theorem insertFraud_keys (f : Fraud) (A : List (String × Fraud)) :
    (insertFraud f A).map Prod.fst = addKey (A.map Prod.fst) (dedupKey f) := by
  induction A with
  | nil => simp [insertFraud, addKey]
  | cons q rest ih =>
    obtain ⟨k, g⟩ := q
    simp only [insertFraud]
    by_cases hk : dedupKey f = k
    · rw [if_pos hk]
      have hmem : dedupKey f ∈ ((k, g) :: rest).map Prod.fst := by simp [hk]
      rw [addKey, if_pos hmem]
      split <;> simp
    · rw [if_neg hk]
      simp only [List.map_cons, ih, addKey]
      by_cases hmem : dedupKey f ∈ rest.map Prod.fst
      · rw [if_pos hmem, if_pos (by simp [hmem])]
      · rw [if_neg hmem, if_neg (by simp [hmem, hk])]
        simp

theorem lookupK_insertFraud (f : Fraud) (A : List (String × Fraud)) (k : String) :
    lookupK k (insertFraud f A) =
      if dedupKey f = k then betterF (lookupK k A) f else lookupK k A := by
  induction A with
  | nil =>
    by_cases hk : dedupKey f = k
    · simp [insertFraud, lookupK, List.find?_cons, beq_iff_eq.mpr hk, hk, betterF]
    · simp only [insertFraud, lookupK, List.find?_cons]
      rw [if_neg hk]
      have : (dedupKey f == k) = false := by simp [hk]
      simp [this]
  | cons q rest ih =>
    obtain ⟨k', g⟩ := q
    simp only [insertFraud]
    by_cases hk : dedupKey f = k'
    · rw [if_pos hk]
      by_cases hkk : k' = k
      · subst hkk
        rw [if_pos hk]
        have hb : (k' == k') = true := beq_iff_eq.mpr rfl
        split
        · next hs =>
          simp only [lookupK, List.find?_cons, hb, betterF]
          simp [hs]
        · next hs =>
          simp only [lookupK, List.find?_cons, hb, betterF]
          simp [hs]
      · have hfk : dedupKey f ≠ k := fun h => hkk (hk.symm.trans h)
        rw [if_neg hfk]
        have hb : (k' == k) = false := by simp [hkk]
        split <;> simp [lookupK, List.find?_cons, hb]
    · rw [if_neg hk]
      by_cases hkk : k' = k
      · subst hkk
        have hfk : dedupKey f ≠ k' := hk
        rw [if_neg hfk]
        have hb : (k' == k') = true := beq_iff_eq.mpr rfl
        simp [lookupK, List.find?_cons, hb]
      · have hb : (k' == k) = false := by simp [hkk]
        simp only [lookupK, List.find?_cons, hb]
        simpa [lookupK] using ih

theorem uniqueFirstAux_congr :
    ∀ (l s t : List String), (∀ a, a ∈ s ↔ a ∈ t) →
      uniqueFirstAux s l = uniqueFirstAux t l := by
  intro l
  induction l with
  | nil => intro s t _; rfl
  | cons x xs ih =>
    intro s t hst
    simp only [uniqueFirstAux]
    by_cases hx : x ∈ s
    · rw [if_pos hx, if_pos ((hst x).mp hx)]
      exact ih s t hst
    · rw [if_neg hx, if_neg (fun h => hx ((hst x).mpr h))]
      rw [ih (x :: s) (x :: t) (fun a => by simp [List.mem_cons, hst a])]

theorem foldl_addKey (l : List String) :
    ∀ ks : List String, l.foldl addKey ks = ks ++ uniqueFirstAux ks l := by
  induction l with
  | nil => intro ks; simp [uniqueFirstAux]
  | cons x xs ih =>
    intro ks
    simp only [List.foldl_cons, uniqueFirstAux]
    by_cases hx : x ∈ ks
    · rw [if_pos hx]
      have : addKey ks x = ks := by rw [addKey, if_pos hx]
      rw [this, ih ks]
    · rw [if_neg hx]
      have : addKey ks x = ks ++ [x] := by rw [addKey, if_neg hx]
      rw [this, ih (ks ++ [x])]
      rw [uniqueFirstAux_congr xs (ks ++ [x]) (x :: ks) (fun a => by simp [List.mem_append, List.mem_cons, or_comm])]
      simp

theorem uniqueFirstAux_sound :
    ∀ (l seen : List String),
      (uniqueFirstAux seen l).Nodup ∧ ∀ a ∈ uniqueFirstAux seen l, a ∈ l ∧ a ∉ seen := by
  intro l
  induction l with
  | nil => intro seen; simp [uniqueFirstAux]
  | cons x xs ih =>
    intro seen
    simp only [uniqueFirstAux]
    by_cases hx : x ∈ seen
    · rw [if_pos hx]
      refine ⟨(ih seen).1, fun a ha => ?_⟩
      obtain ⟨h1, h2⟩ := (ih seen).2 a ha
      exact ⟨by simp [h1], h2⟩
    · rw [if_neg hx]
      constructor
      · rw [List.nodup_cons]
        refine ⟨fun hc => ?_, (ih (x :: seen)).1⟩
        · have := ((ih (x :: seen)).2 x hc).2
          simp at this
      · intro a ha
        rcases List.mem_cons.mp ha with h | h
        · subst h; exact ⟨by simp, hx⟩
        · obtain ⟨h1, h2⟩ := (ih (x :: seen)).2 a h
          exact ⟨by simp [h1], fun hc => h2 (by simp [hc])⟩

theorem uniqueFirst_nodup (l : List String) : (uniqueFirst l).Nodup :=
  (uniqueFirstAux_sound l []).1

theorem dedupAssoc_entry (fs : List Fraud) : ∀ p ∈ dedupAssoc fs, dedupKey p.2 = p.1 := by
  suffices h : ∀ (A : List (String × Fraud)), (∀ p ∈ A, dedupKey p.2 = p.1) →
      ∀ p ∈ fs.foldl (fun acc f => insertFraud f acc) A, dedupKey p.2 = p.1 by
    exact h [] (by simp)
  induction fs with
  | nil => intro A hA; simpa using hA
  | cons f rest ih =>
    intro A hA
    exact ih _ (insertFraud_entry hA)

theorem dedupAssoc_keys (fs : List Fraud) :
    (dedupAssoc fs).map Prod.fst = uniqueFirst (fs.map dedupKey) := by
  suffices h : ∀ A : List (String × Fraud),
      ((fs.foldl (fun acc f => insertFraud f acc) A).map Prod.fst) =
        (fs.map dedupKey).foldl addKey (A.map Prod.fst) by
    rw [dedupAssoc, h [], foldl_addKey]
    rfl
  induction fs with
  | nil => intro A; rfl
  | cons f rest ih =>
    intro A
    simp only [List.foldl_cons, List.map_cons]
    rw [ih (insertFraud f A), insertFraud_keys]

theorem lookupK_dedupAssoc (fs : List Fraud) (k : String) :
    lookupK k (dedupAssoc fs) =
      (fs.filter (fun f => dedupKey f == k)).foldl betterF none := by
  suffices h : ∀ A : List (String × Fraud),
      lookupK k (fs.foldl (fun acc f => insertFraud f acc) A) =
        (fs.filter (fun f => dedupKey f == k)).foldl betterF (lookupK k A) by
    have h0 := h []
    rw [dedupAssoc]
    rw [h0]
    rfl
  induction fs with
  | nil => intro A; rfl
  | cons f rest ih =>
    intro A
    simp only [List.foldl_cons, List.filter_cons]
    by_cases hk : dedupKey f = k
    · have hb : (dedupKey f == k) = true := beq_iff_eq.mpr hk
      rw [hb]
      simp only [if_true]
      rw [ih (insertFraud f A), lookupK_insertFraud, if_pos hk, List.foldl_cons]
    · have hb : (dedupKey f == k) = false := by simp [hk]
      rw [hb]
      simp only [Bool.false_eq_true, if_false]
      rw [ih (insertFraud f A), lookupK_insertFraud, if_neg hk]

theorem foldl_betterF_spec :
    ∀ l : List Fraud, l ≠ [] →
      ∃ m pre post, l.foldl betterF none = some m ∧ l = pre ++ m :: post ∧
        (∀ g ∈ pre, g.severity < m.severity) ∧ (∀ g ∈ post, g.severity ≤ m.severity) := by
  intro l
  induction l using List.reverseRecOn with
  | nil => intro h; exact absurd rfl h
  | append_singleton l' f ih =>
    intro _
    rw [List.foldl_append]
    rcases eq_or_ne l' [] with hl | hl
    · subst hl
      exact ⟨f, [], [], rfl, rfl, by simp, by simp⟩
    · obtain ⟨m', pre', post', hfold, hdecomp, hpre, hpost⟩ := ih hl
      rw [hfold]
      by_cases hs : m'.severity < f.severity
      · refine ⟨f, l', [], ?_, by simp, ?_, by simp⟩
        · simp [betterF, hs]
        · intro g hg
          rw [hdecomp] at hg
          rcases List.mem_append.mp hg with h | h
          · exact lt_trans (hpre g h) hs
          · rcases List.mem_cons.mp h with h | h
            · subst h; exact hs
            · exact lt_of_le_of_lt (hpost g h) hs
      · refine ⟨m', pre', post' ++ [f], ?_, ?_, hpre, ?_⟩
        · simp [betterF, hs]
        · rw [hdecomp]; simp
        · intro g hg
          rcases List.mem_append.mp hg with h | h
          · exact hpost g h
          · simp only [List.mem_singleton] at h
            subst h
            omega

theorem assoc_filter_key :
    ∀ (A : List (String × Fraud)), (∀ p ∈ A, dedupKey p.2 = p.1) →
      ((A.map Prod.fst).Nodup) → ∀ k : String,
      (A.map Prod.snd).filter (fun v => dedupKey v == k) =
        match lookupK k A with
        | some m => [m]
        | none => [] := by
  intro A
  induction A with
  | nil => intro _ _ k; rfl
  | cons q rest ih =>
    obtain ⟨k', g⟩ := q
    intro hA hnd k
    have hg : dedupKey g = k' := hA (k', g) (by simp)
    have hrest : ∀ p ∈ rest, dedupKey p.2 = p.1 := fun p hp => hA p (by simp [hp])
    have hnd' : (k' :: rest.map Prod.fst).Nodup := by rw [List.map_cons] at hnd; exact hnd
    have hndrest := (List.nodup_cons.mp hnd').2
    have hknotin : k' ∉ rest.map Prod.fst := (List.nodup_cons.mp hnd').1
    simp only [List.map_cons, List.filter_cons]
    by_cases hk : k' = k
    · subst hk
      have hb : (dedupKey g == k') = true := beq_iff_eq.mpr hg
      rw [hb]
      simp only [if_true]
      have hnil : (rest.map Prod.snd).filter (fun v => dedupKey v == k') = [] := by
        rw [List.filter_eq_nil_iff]
        intro v hv
        obtain ⟨p, hp, hpv⟩ := List.mem_map.mp hv
        intro hc
        have h1 : dedupKey v = p.1 := by rw [← hpv]; exact hrest p hp
        have h2 : dedupKey v = k' := beq_iff_eq.mp hc
        exact hknotin (List.mem_map.mpr ⟨p, hp, by rw [← h1, h2]⟩)
      rw [hnil]
      have hfind : lookupK k' ((k', g) :: rest) = some g := by
        simp [lookupK, List.find?_cons]
      rw [hfind]
    · have hb : (dedupKey g == k) = false := by simp [hg, hk]
      rw [hb]
      simp only [Bool.false_eq_true, if_false]
      have hfind : lookupK k ((k', g) :: rest) = lookupK k rest := by
        have : (k' == k) = false := by simp [hk]
        simp [lookupK, List.find?_cons, this]
      rw [hfind]
      exact ih hrest hndrest k

/-- C1 counterexample: on a three-row employee-day group in which all
three unordered pairs are flagged, `_check_smurfing` emits three SMURFING
violations with three distinct order-independent sorted-pair keys, the
other four rules emit nothing, and yet the deduplicated table of
`analyze_transactions` holds only two violations — the deduplicator does
not group smurfing violations by the sorted pair (it groups them by the
first id `id_1` alone, as the key list `["T1", "T1", "T2"]` shows), so it
is false that exactly one violation survives for every sorted-pair
identity key. -/
theorem c1_pair_key_counterexample :
    (checkSmurfing ex3).length = 3 ∧
    ((checkSmurfing ex3).filterMap smurfIds).Nodup ∧
    ((checkSmurfing ex3).filterMap smurfIds).length = 3 ∧
    (checkSmurfing ex3).map dedupKey = ["T1", "T1", "T2"] ∧
    checkProhibitedItems ex3 = [] ∧
    checkUnauthorizedAmounts ex3 = [] ∧
    checkRestrictedLocations ex3 = [] ∧
    checkSuspiciousCategories ex3df = [] ∧
    (analyzeTransactions ex3df).length = 2 := by
  with_unfolding_all decide

/-- C1 (amended): the deduplicated table is grouped by the key actually
computed by `_deduplicate_frauds` — the transaction id for
single-transaction violations and the first id `id_1` (order-dependent)
for smurfing violations; for every such key exactly one violation
survives, in first-occurrence order; the order-independent sorted pair
key is symmetric but is used only inside `_check_smurfing` to avoid
re-reporting a pair. -/
theorem c1_dedup_key_amended (fs : List Fraud) :
    ((dedupFrauds fs).map dedupKey = uniqueFirst (fs.map dedupKey) ∧
      ((dedupFrauds fs).map dedupKey).Nodup) ∧
    (∀ (p : SmurfTx) (vt : String) (sev : Nat) (r rs ev : String),
      dedupKey ⟨FraudTx.pair p, vt, sev, r, rs, ev⟩ = p.id_1) ∧
    (∀ a b : String, pairKey a b = pairKey b a) := by
  refine ⟨?_, fun p vt sev r rs ev => rfl, pairKey_comm⟩
  have h1 : dedupFrauds fs = (dedupAssoc fs).map Prod.snd := rfl
  have h2 : (dedupFrauds fs).map dedupKey = (dedupAssoc fs).map Prod.fst := by
    rw [h1, List.map_map]
    exact List.map_congr_left (fun p hp => dedupAssoc_entry fs p hp)
  rw [h2, dedupAssoc_keys]
  exact ⟨rfl, by rw [← dedupAssoc_keys]; rw [dedupAssoc_keys]; exact uniqueFirst_nodup _⟩

/-- C3: for every identity key (as computed by the deduplicator) with at
least one violation, exactly one violation survives deduplication: it is
the first violation with maximal severity in emission order — every
earlier violation for the key has strictly smaller severity and every
later one has severity at most the survivor, so later equal-severity
violations never overwrite it; and `analyze_transactions` emits the
evaluators in the fixed order prohibited-item, unauthorized-amount,
smurfing, restricted-location, suspicious-category before
deduplicating. -/
theorem c3_dedup_retains_first_highest (fs : List Fraud) (k : String)
    (hk : k ∈ fs.map dedupKey) :
    (∃ m pre post,
      (dedupFrauds fs).filter (fun v => dedupKey v == k) = [m] ∧
      fs.filter (fun v => dedupKey v == k) = pre ++ m :: post ∧
      (∀ g ∈ pre, g.severity < m.severity) ∧
      (∀ g ∈ post, g.severity ≤ m.severity)) ∧
    (∀ df : DataFrame, analyzeTransactions df =
      dedupFrauds (checkProhibitedItems df.rows ++ checkUnauthorizedAmounts df.rows ++
        checkSmurfing df.rows ++ checkRestrictedLocations df.rows ++
        checkSuspiciousCategories df)) := by
  refine ⟨?_, fun df => rfl⟩
  have hne : fs.filter (fun v => dedupKey v == k) ≠ [] := by
    obtain ⟨f, hf, hfk⟩ := List.mem_map.mp hk
    intro hc
    have hmem : f ∈ fs.filter (fun v => dedupKey v == k) :=
      List.mem_filter.mpr ⟨hf, beq_iff_eq.mpr hfk⟩
    rw [hc] at hmem
    exact List.not_mem_nil f hmem
  obtain ⟨m, pre, post, hfold, hdecomp, hpre, hpost⟩ := foldl_betterF_spec _ hne
  refine ⟨m, pre, post, ?_, hdecomp, hpre, hpost⟩
  have h1 : dedupFrauds fs = (dedupAssoc fs).map Prod.snd := rfl
  rw [h1, assoc_filter_key (dedupAssoc fs) (dedupAssoc_entry fs)
    (by rw [dedupAssoc_keys]; exact uniqueFirst_nodup _) k]
  rw [lookupK_dedupAssoc, hfold]

/-- C3 witness: on a single row matching both the prohibited-item rule
(severity 9) and the suspicious-category rule (severity 7), the key `K1`
occurs and the theorem yields the unique surviving violation. -/
theorem c3_dedup_retains_first_highest_witness :
    ("K1" ∈ exKFrauds.map dedupKey) ∧
    ((∃ m pre post,
      (dedupFrauds exKFrauds).filter (fun v => dedupKey v == "K1") = [m] ∧
      exKFrauds.filter (fun v => dedupKey v == "K1") = pre ++ m :: post ∧
      (∀ g ∈ pre, g.severity < m.severity) ∧
      (∀ g ∈ post, g.severity ≤ m.severity)) ∧
    (∀ df : DataFrame, analyzeTransactions df =
      dedupFrauds (checkProhibitedItems df.rows ++ checkUnauthorizedAmounts df.rows ++
        checkSmurfing df.rows ++ checkRestrictedLocations df.rows ++
        checkSuspiciousCategories df))) :=
  ⟨by with_unfolding_all decide,
   c3_dedup_retains_first_highest exKFrauds "K1" (by with_unfolding_all decide)⟩

theorem rowwise_filter_eq (emit : Transaction → List Fraud)
    (hemit : ∀ r v, v ∈ emit r → singleId v = some r.id_transacao) :
    ∀ df : List Transaction, (df.map (fun t => t.id_transacao)).Nodup →
      ∀ t ∈ df,
        (df.flatMap emit).filter (fun v => singleId v == some t.id_transacao) = emit t := by
  intro df
  induction df with
  | nil => intro _ t ht; exact absurd ht (List.not_mem_nil t)
  | cons s rest ih =>
    intro hids t ht
    rw [List.map_cons, List.nodup_cons] at hids
    obtain ⟨hsid, hrest⟩ := hids
    rw [List.flatMap_cons, List.filter_append]
    have hfilter_rest_nil : ∀ a : String, a ∉ rest.map (fun t => t.id_transacao) →
        (rest.flatMap emit).filter (fun v => singleId v == some a) = [] := by
      intro a hA
      rw [List.filter_eq_nil_iff]
      intro v hv hc
      obtain ⟨r, hr, hvr⟩ := List.mem_flatMap.mp hv
      have h1 : singleId v = some r.id_transacao := hemit r v hvr
      have h2 : singleId v = some a := beq_iff_eq.mp hc
      rw [h1] at h2
      exact hA (List.mem_map.mpr ⟨r, hr, Option.some_inj.mp h2⟩)
    rcases List.mem_cons.mp ht with h | h
    · subst h
      have hpass : (emit t).filter (fun v => singleId v == some t.id_transacao) = emit t := by
        rw [List.filter_eq_self]
        intro v hv
        rw [hemit t v hv]
        exact beq_iff_eq.mpr rfl
      rw [hpass, hfilter_rest_nil t.id_transacao hsid, List.append_nil]
    · have htid : t.id_transacao ∈ rest.map (fun t => t.id_transacao) :=
        List.mem_map.mpr ⟨t, h, rfl⟩
      have hne : s.id_transacao ≠ t.id_transacao := fun hc => hsid (hc ▸ htid)
      have hhead : (emit s).filter (fun v => singleId v == some t.id_transacao) = [] := by
        rw [List.filter_eq_nil_iff]
        intro v hv hc
        have h1 : singleId v = some s.id_transacao := hemit s v hv
        have h2 : singleId v = some t.id_transacao := beq_iff_eq.mp hc
        rw [h1] at h2
        exact hne (Option.some_inj.mp h2)
      rw [hhead, List.nil_append]
      exact ih hrest t h

theorem checkProhibitedItems_flatMap (l : List Transaction) :
    checkProhibitedItems l = l.flatMap (fun row =>
      match prohibited_keywords.find? (fun k => strIn k (pyLower row.descricao)) with
      | some k => [mkProhib row k]
      | none => []) := by
  induction l with
  | nil => rfl
  | cons s rest ih =>
    simp only [checkProhibitedItems, List.flatMap_cons, ih]

theorem checkUnauthorizedAmounts_flatMap (l : List Transaction) :
    checkUnauthorizedAmounts l = l.flatMap (fun row =>
      if highValueThreshold < row.valor ∧ hasApprovalMarker (pyLower row.descricao) = false
      then [mkUnauth row] else []) := by
  induction l with
  | nil => rfl
  | cons s rest ih =>
    simp only [checkUnauthorizedAmounts, List.flatMap_cons, ih]

theorem checkRestrictedLocations_flatMap (l : List Transaction) :
    checkRestrictedLocations l = l.flatMap (fun row =>
      match restricted_locations.find? (fun loc => strIn loc (pyLower row.descricao)) with
      | some loc => [mkRestricted row loc]
      | none => []) := by
  induction l with
  | nil => rfl
  | cons s rest ih =>
    simp only [checkRestrictedLocations, List.flatMap_cons, ih]

theorem checkSuspiciousRows_flatMap (l : List Transaction) :
    checkSuspiciousRows l = l.flatMap (fun row =>
      if row.categoria = some suspiciousCategory then [mkSusp row] else []) := by
  induction l with
  | nil => rfl
  | cons s rest ih =>
    simp only [checkSuspiciousRows, List.flatMap_cons, ih]

/-- C4: a transaction whose lower-cased description contains at least one
deny-listed keyword receives exactly one PROHIBITED_ITEM violation, of
severity 9, whose reason cites the first matching keyword in deny-list
order (`find?`); a transaction matching no keyword receives none. -/
theorem c4_prohibited_first_keyword (df : List Transaction)
    (hids : (df.map (fun t => t.id_transacao)).Nodup)
    (t : Transaction) (ht : t ∈ df) :
    ((checkProhibitedItems df).filter (fun v => singleId v == some t.id_transacao) =
      match prohibited_keywords.find? (fun k => strIn k (pyLower t.descricao)) with
      | some k => [mkProhib t k]
      | none => []) ∧
    ((prohibited_keywords.find? (fun k => strIn k (pyLower t.descricao))).isSome ↔
      ∃ k ∈ prohibited_keywords, strIn k (pyLower t.descricao) = true) ∧
    (∀ k : String,
      prohibited_keywords.find? (fun k2 => strIn k2 (pyLower t.descricao)) = some k →
        k ∈ prohibited_keywords ∧ strIn k (pyLower t.descricao) = true) ∧
    (∀ k : String, (mkProhib t k).severity = 9 ∧
      (mkProhib t k).violation_type = "ITEM_PROIBIDO" ∧
      (mkProhib t k).reason = "Compra de item proibido detectada: \"" ++ k ++ "\"") := by
  refine ⟨?_, List.find?_isSome, ?_, fun k => ⟨rfl, rfl, rfl⟩⟩
  · rw [checkProhibitedItems_flatMap]
    exact rowwise_filter_eq _ (by
      intro r v hv
      revert hv
      cases prohibited_keywords.find? (fun k => strIn k (pyLower r.descricao)) with
      | none => intro hv; exact absurd hv (List.not_mem_nil v)
      | some k =>
        intro hv
        rw [List.mem_singleton] at hv
        subst hv
        rfl) df hids t ht
  · intro k hk
    have hp := @List.find?_some String (fun k2 => strIn k2 (pyLower t.descricao)) k
      prohibited_keywords hk
    exact ⟨List.mem_of_find?_eq_some hk, hp⟩

/-- C5: a transaction with amount strictly above 500 and none of the
three approval markers as a substring of its lower-cased description
receives exactly one UNAUTHORIZED_AMOUNT violation of severity 7; a
transaction at or below the threshold, or containing a marker, receives
none. -/
theorem c5_unauthorized_amounts (df : List Transaction)
    (hids : (df.map (fun t => t.id_transacao)).Nodup)
    (t : Transaction) (ht : t ∈ df) :
    ((checkUnauthorizedAmounts df).filter (fun v => singleId v == some t.id_transacao) =
      if highValueThreshold < t.valor ∧ hasApprovalMarker (pyLower t.descricao) = false
      then [mkUnauth t] else []) ∧
    (hasApprovalMarker (pyLower t.descricao) = false ↔
      (strIn "po" (pyLower t.descricao) = false ∧
       strIn "purchase order" (pyLower t.descricao) = false ∧
       strIn "p.o." (pyLower t.descricao) = false)) ∧
    (mkUnauth t).severity = 7 ∧
    (mkUnauth t).violation_type = "VALOR_NAO_AUTORIZADO" ∧
    highValueThreshold = 500 := by
  refine ⟨?_, ?_, rfl, rfl, rfl⟩
  · rw [checkUnauthorizedAmounts_flatMap]
    exact rowwise_filter_eq _ (by
      intro r v hv
      revert hv
      split
      · intro hv
        rw [List.mem_singleton] at hv
        subst hv
        rfl
      · intro hv; exact absurd hv (List.not_mem_nil v)) df hids t ht
  · rw [hasApprovalMarker]
    constructor
    · intro h
      simp only [Bool.or_eq_false_iff] at h
      exact ⟨h.1.1, h.1.2, h.2⟩
    · intro ⟨h1, h2, h3⟩
      simp [h1, h2, h3]

/-- C7: with the category column present, a row receives exactly one
CATEGORIA_SUSPEITA violation of severity 7 precisely when its category
cell equals the sentinel value; empty, missing or different categories
are never flagged; and with the column absent the check emits nothing. -/
theorem c7_suspicious_categories (df : DataFrame)
    (hids : (df.rows.map (fun t => t.id_transacao)).Nodup)
    (t : Transaction) (ht : t ∈ df.rows) :
    (df.hasCategoria = false → checkSuspiciousCategories df = []) ∧
    (df.hasCategoria = true →
      (checkSuspiciousCategories df).filter (fun v => singleId v == some t.id_transacao) =
        if t.categoria = some suspiciousCategory then [mkSusp t] else []) ∧
    (mkSusp t).severity = 7 ∧
    (mkSusp t).violation_type = "CATEGORIA_SUSPEITA" ∧
    suspiciousCategory = "Segurança" := by
  refine ⟨?_, ?_, rfl, rfl, rfl⟩
  · intro h
    rw [checkSuspiciousCategories, h]
    rfl
  · intro h
    rw [checkSuspiciousCategories, h, if_pos rfl, checkSuspiciousRows_flatMap]
    exact rowwise_filter_eq _ (by
      intro r v hv
      revert hv
      split
      · intro hv
        rw [List.mem_singleton] at hv
        subst hv
        rfl
      · intro hv; exact absurd hv (List.not_mem_nil v)) df.rows hids t ht

/-- C4 witness: the karaoke row of the single-row table is flagged once,
with severity 9, citing the first matching keyword. -/
theorem c4_prohibited_first_keyword_witness :
    (([txK].map (fun t => t.id_transacao)).Nodup ∧ txK ∈ [txK]) ∧
    (((checkProhibitedItems [txK]).filter (fun v => singleId v == some txK.id_transacao) =
      match prohibited_keywords.find? (fun k => strIn k (pyLower txK.descricao)) with
      | some k => [mkProhib txK k]
      | none => []) ∧
    ((prohibited_keywords.find? (fun k => strIn k (pyLower txK.descricao))).isSome ↔
      ∃ k ∈ prohibited_keywords, strIn k (pyLower txK.descricao) = true) ∧
    (∀ k : String,
      prohibited_keywords.find? (fun k2 => strIn k2 (pyLower txK.descricao)) = some k →
        k ∈ prohibited_keywords ∧ strIn k (pyLower txK.descricao) = true) ∧
    (∀ k : String, (mkProhib txK k).severity = 9 ∧
      (mkProhib txK k).violation_type = "ITEM_PROIBIDO" ∧
      (mkProhib txK k).reason = "Compra de item proibido detectada: \"" ++ k ++ "\"")) :=
  ⟨⟨by with_unfolding_all decide, by with_unfolding_all decide⟩,
   c4_prohibited_first_keyword [txK] (by with_unfolding_all decide) txK
     (by with_unfolding_all decide)⟩

/-- C5 witness: the 650-amount row with no approval marker is flagged
once with severity 7. -/
theorem c5_unauthorized_amounts_witness :
    (([txU].map (fun t => t.id_transacao)).Nodup ∧ txU ∈ [txU]) ∧
    (((checkUnauthorizedAmounts [txU]).filter (fun v => singleId v == some txU.id_transacao) =
      if highValueThreshold < txU.valor ∧ hasApprovalMarker (pyLower txU.descricao) = false
      then [mkUnauth txU] else []) ∧
    (hasApprovalMarker (pyLower txU.descricao) = false ↔
      (strIn "po" (pyLower txU.descricao) = false ∧
       strIn "purchase order" (pyLower txU.descricao) = false ∧
       strIn "p.o." (pyLower txU.descricao) = false)) ∧
    (mkUnauth txU).severity = 7 ∧
    (mkUnauth txU).violation_type = "VALOR_NAO_AUTORIZADO" ∧
    highValueThreshold = 500) :=
  ⟨⟨by with_unfolding_all decide, by with_unfolding_all decide⟩,
   c5_unauthorized_amounts [txU] (by with_unfolding_all decide) txU
     (by with_unfolding_all decide)⟩

/-- C7 witness: the row categorised `Segurança` is flagged once with
severity 7 when the category column is present. -/
theorem c7_suspicious_categories_witness :
    ((exKdf.rows.map (fun t => t.id_transacao)).Nodup ∧ txK ∈ exKdf.rows) ∧
    ((exKdf.hasCategoria = false → checkSuspiciousCategories exKdf = []) ∧
    (exKdf.hasCategoria = true →
      (checkSuspiciousCategories exKdf).filter (fun v => singleId v == some txK.id_transacao) =
        if txK.categoria = some suspiciousCategory then [mkSusp txK] else []) ∧
    (mkSusp txK).severity = 7 ∧
    (mkSusp txK).violation_type = "CATEGORIA_SUSPEITA" ∧
    suspiciousCategory = "Segurança") :=
  ⟨⟨by with_unfolding_all decide, by with_unfolding_all decide⟩,
   c7_suspicious_categories exKdf (by with_unfolding_all decide) txK
     (by with_unfolding_all decide)⟩

theorem insertTx_mem (t : Transaction) : ∀ (l : List Transaction) (a : Transaction),
    a ∈ insertTx t l ↔ a = t ∨ a ∈ l := by
  intro l
  induction l with
  | nil => intro a; simp [insertTx]
  | cons s rest ih =>
    intro a
    simp only [insertTx]
    split
    · simp [List.mem_cons]
    · simp only [List.mem_cons, ih]
      tauto

theorem sortTx_mem : ∀ (l : List Transaction) (a : Transaction), a ∈ sortTx l ↔ a ∈ l := by
  intro l
  induction l with
  | nil => intro a; simp [sortTx]
  | cons s rest ih =>
    intro a
    simp only [sortTx, insertTx_mem, ih, List.mem_cons]

theorem ordPairs_sublist {α : Type} :
    ∀ {l : List α} {a b : α}, (a, b) ∈ ordPairs l → [a, b].Sublist l := by
  intro l
  induction l with
  | nil => intro a b h; simp [ordPairs] at h
  | cons x xs ih =>
    intro a b h
    simp only [ordPairs, List.mem_append] at h
    rcases h with h | h
    · obtain ⟨y, hy, hxy⟩ := List.mem_map.mp h
      cases hxy
      exact List.Sublist.cons₂ x (List.singleton_sublist.mpr hy)
    · exact (ih h).cons x

theorem ordPairs_mem_or {α : Type} :
    ∀ {l : List α} {a b : α}, a ∈ l → b ∈ l → a ≠ b →
      (a, b) ∈ ordPairs l ∨ (b, a) ∈ ordPairs l := by
  intro l
  induction l with
  | nil => intro a b ha _ _; exact absurd ha (List.not_mem_nil a)
  | cons x xs ih =>
    intro a b ha hb hne
    rcases List.mem_cons.mp ha with h1 | h1
    · subst h1
      have hbxs : b ∈ xs := by
        rcases List.mem_cons.mp hb with h | h
        · exact absurd h.symm hne
        · exact h
      exact Or.inl (by simp only [ordPairs, List.mem_append]
                       exact Or.inl (List.mem_map.mpr ⟨b, hbxs, rfl⟩))
    · rcases List.mem_cons.mp hb with h2 | h2
      · subst h2
        exact Or.inr (by simp only [ordPairs, List.mem_append]
                         exact Or.inl (List.mem_map.mpr ⟨a, h1, rfl⟩))
      · rcases ih h1 h2 hne with h | h
        · exact Or.inl (by simp only [ordPairs, List.mem_append]; exact Or.inr h)
        · exact Or.inr (by simp only [ordPairs, List.mem_append]; exact Or.inr h)

theorem uniqueFirstAux_complete :
    ∀ (l seen : List String) (a : String), a ∈ l → a ∉ seen →
      a ∈ uniqueFirstAux seen l := by
  intro l
  induction l with
  | nil => intro seen a ha _; exact absurd ha (List.not_mem_nil a)
  | cons x xs ih =>
    intro seen a ha hseen
    simp only [uniqueFirstAux]
    by_cases hx : x ∈ seen
    · rw [if_pos hx]
      rcases List.mem_cons.mp ha with h | h
      · subst h; exact absurd hx hseen
      · exact ih seen a h hseen
    · rw [if_neg hx]
      by_cases hax : a = x
      · subst hax; exact List.mem_cons_self a _
      · rcases List.mem_cons.mp ha with h | h
        · exact absurd h hax
        · exact List.mem_cons_of_mem x
            (ih (x :: seen) a h (by simp [List.mem_cons, hax, hseen]))

theorem mem_uniqueFirst {l : List String} {a : String} : a ∈ uniqueFirst l ↔ a ∈ l :=
  ⟨fun h => ((uniqueFirstAux_sound l []).2 a h).1,
   fun h => uniqueFirstAux_complete l [] a h (List.not_mem_nil a)⟩

theorem quad_mem {df : List Transaction} {q : SmurfGroupPair} (hq : q ∈ smurfQuads df) :
    q.r1.funcionario = q.func ∧ q.r2.funcionario = q.func ∧
    q.r1.data = q.date ∧ q.r2.data = q.date ∧
    q.r1 ∈ df ∧ q.r2 ∈ df ∧
    [q.r1, q.r2].Sublist (dayGroup df q.func q.date) := by
  simp only [smurfQuads, List.mem_flatMap, List.mem_map] at hq
  obtain ⟨f, _, d, _, p, hp, hpq⟩ := hq
  obtain ⟨r1, r2⟩ := p
  cases hpq
  have hsub : [r1, r2].Sublist (dayGroup df f d) := ordPairs_sublist hp
  have hr1day : r1 ∈ dayGroup df f d := hsub.subset (by simp)
  have hr2day : r2 ∈ dayGroup df f d := hsub.subset (by simp)
  have h1 := List.mem_filter.mp hr1day
  have h2 := List.mem_filter.mp hr2day
  have h1f := List.mem_filter.mp h1.1
  have h2f := List.mem_filter.mp h2.1
  refine ⟨beq_iff_eq.mp h1f.2, beq_iff_eq.mp h2f.2,
    beq_iff_eq.mp h1.2, beq_iff_eq.mp h2.2,
    (sortTx_mem df r1).mp h1f.1, (sortTx_mem df r2).mp h2f.1, hsub⟩

theorem quad_exists {df : List Transaction} {t1 t2 : Transaction}
    (h1 : t1 ∈ df) (h2 : t2 ∈ df) (hne : t1 ≠ t2)
    (hf : t1.funcionario = t2.funcionario) (hd : t1.data = t2.data) :
    (⟨t1.funcionario, t1.data, t1, t2⟩ : SmurfGroupPair) ∈ smurfQuads df ∨
    (⟨t1.funcionario, t1.data, t2, t1⟩ : SmurfGroupPair) ∈ smurfQuads df := by
  have hfmem : t1.funcionario ∈ uniqueFirst (df.map (fun t => t.funcionario)) :=
    mem_uniqueFirst.mpr (List.mem_map.mpr ⟨t1, h1, rfl⟩)
  have ht1f : t1 ∈ funcFrame df t1.funcionario :=
    List.mem_filter.mpr ⟨(sortTx_mem df t1).mpr h1, beq_iff_eq.mpr rfl⟩
  have ht2f : t2 ∈ funcFrame df t1.funcionario :=
    List.mem_filter.mpr ⟨(sortTx_mem df t2).mpr h2, beq_iff_eq.mpr hf.symm⟩
  have hdmem : t1.data ∈ uniqueFirst ((funcFrame df t1.funcionario).map (fun t => t.data)) :=
    mem_uniqueFirst.mpr (List.mem_map.mpr ⟨t1, ht1f, rfl⟩)
  have ht1d : t1 ∈ dayGroup df t1.funcionario t1.data :=
    List.mem_filter.mpr ⟨ht1f, beq_iff_eq.mpr rfl⟩
  have ht2d : t2 ∈ dayGroup df t1.funcionario t1.data :=
    List.mem_filter.mpr ⟨ht2f, beq_iff_eq.mpr hd.symm⟩
  rcases ordPairs_mem_or ht1d ht2d hne with hp | hp
  · exact Or.inl (by
      simp only [smurfQuads, List.mem_flatMap, List.mem_map]
      exact ⟨t1.funcionario, hfmem, t1.data, hdmem, (t1, t2), hp, rfl⟩)
  · exact Or.inr (by
      simp only [smurfQuads, List.mem_flatMap, List.mem_map]
      exact ⟨t1.funcionario, hfmem, t1.data, hdmem, (t2, t1), hp, rfl⟩)

theorem smurfIds_mkSmurf (f d : String) (r1 r2 : Transaction) :
    smurfIds (mkSmurf f d r1 r2) = some (pairKey r1.id_transacao r2.id_transacao) := rfl

theorem smurfScan_out_sub :
    ∀ (Q : List SmurfGroupPair) (D : List (String × String)) (O : List Fraud),
      ∀ v ∈ (smurfScan Q D O).2,
        v ∈ O ∨ ∃ q ∈ Q, smurfCondB q.r1 q.r2 = true ∧
          v = mkSmurf q.func q.date q.r1 q.r2 := by
  intro Q
  induction Q with
  | nil => intro D O v hv; exact Or.inl hv
  | cons q rest ih =>
    intro D O v hv
    simp only [smurfScan] at hv
    split at hv
    · rcases ih D O v hv with h | ⟨q2, hq2, hc, hveq⟩
      · exact Or.inl h
      · exact Or.inr ⟨q2, List.mem_cons_of_mem q hq2, hc, hveq⟩
    · split at hv
      · next hcond =>
        rcases ih _ _ v hv with h | ⟨q2, hq2, hc, hveq⟩
        · rcases List.mem_append.mp h with h2 | h2
          · exact Or.inl h2
          · rw [List.mem_singleton] at h2
            exact Or.inr ⟨q, List.mem_cons_self q rest, hcond, h2⟩
        · exact Or.inr ⟨q2, List.mem_cons_of_mem q hq2, hc, hveq⟩
      · rcases ih D O v hv with h | ⟨q2, hq2, hc, hveq⟩
        · exact Or.inl h
        · exact Or.inr ⟨q2, List.mem_cons_of_mem q hq2, hc, hveq⟩

theorem smurfScan_det_mono :
    ∀ (Q : List SmurfGroupPair) (D : List (String × String)) (O : List Fraud),
      ∀ k ∈ D, k ∈ (smurfScan Q D O).1 := by
  intro Q
  induction Q with
  | nil => intro D O k hk; exact hk
  | cons q rest ih =>
    intro D O k hk
    simp only [smurfScan]
    split
    · exact ih D O k hk
    · split
      · exact ih _ _ k (List.mem_cons_of_mem _ hk)
      · exact ih D O k hk

theorem smurfScan_out_mono :
    ∀ (Q : List SmurfGroupPair) (D : List (String × String)) (O : List Fraud),
      ∀ v ∈ O, v ∈ (smurfScan Q D O).2 := by
  intro Q
  induction Q with
  | nil => intro D O v hv; exact hv
  | cons q rest ih =>
    intro D O v hv
    simp only [smurfScan]
    split
    · exact ih D O v hv
    · split
      · exact ih _ _ v (List.mem_append.mpr (Or.inl hv))
      · exact ih D O v hv

theorem smurfScan_det_covered :
    ∀ (Q : List SmurfGroupPair) (D : List (String × String)) (O : List Fraud),
      ∀ q ∈ Q, smurfCondB q.r1 q.r2 = true →
        pairKey q.r1.id_transacao q.r2.id_transacao ∈ (smurfScan Q D O).1 := by
  intro Q
  induction Q with
  | nil => intro D O q hq _; exact absurd hq (List.not_mem_nil q)
  | cons q0 rest ih =>
    intro D O q hq hc
    rcases List.mem_cons.mp hq with h | h
    · subst h
      simp only [smurfScan]
      by_cases hin : pairKey q.r1.id_transacao q.r2.id_transacao ∈ D
      · rw [if_pos hin]
        exact smurfScan_det_mono rest D O _ hin
      · rw [if_neg hin, if_pos hc]
        exact smurfScan_det_mono rest _ _ _ (List.mem_cons_self _ _)
    · simp only [smurfScan]
      by_cases hin : pairKey q0.r1.id_transacao q0.r2.id_transacao ∈ D
      · rw [if_pos hin]
        exact ih D O q h hc
      · rw [if_neg hin]
        by_cases hc0 : smurfCondB q0.r1 q0.r2 = true
        · rw [if_pos hc0]
          exact ih _ _ q h hc
        · rw [if_neg hc0]
          exact ih D O q h hc

theorem smurfScan_det_to_out :
    ∀ (Q : List SmurfGroupPair) (D : List (String × String)) (O : List Fraud),
      ∀ k ∈ (smurfScan Q D O).1,
        k ∈ D ∨ ∃ v ∈ (smurfScan Q D O).2, smurfIds v = some k := by
  intro Q
  induction Q with
  | nil => intro D O k hk; exact Or.inl hk
  | cons q rest ih =>
    intro D O k hk
    simp only [smurfScan] at hk ⊢
    by_cases hin : pairKey q.r1.id_transacao q.r2.id_transacao ∈ D
    · rw [if_pos hin] at hk ⊢
      exact ih D O k hk
    · rw [if_neg hin] at hk ⊢
      by_cases hc : smurfCondB q.r1 q.r2 = true
      · rw [if_pos hc] at hk ⊢
        rcases ih _ _ k hk with h | h
        · rcases List.mem_cons.mp h with h2 | h2
          · subst h2
            refine Or.inr ⟨mkSmurf q.func q.date q.r1 q.r2, ?_, smurfIds_mkSmurf _ _ _ _⟩
            exact smurfScan_out_mono rest _ _ _
              (List.mem_append.mpr (Or.inr (List.mem_singleton.mpr rfl)))
          · exact Or.inl h2
        · exact Or.inr h
      · rw [if_neg hc] at hk ⊢
        exact ih D O k hk

theorem smurfScan_ids_nodup :
    ∀ (Q : List SmurfGroupPair) (D : List (String × String)) (O : List Fraud),
      (O.filterMap smurfIds).Nodup →
      (∀ k ∈ O.filterMap smurfIds, k ∈ D) →
      (((smurfScan Q D O).2).filterMap smurfIds).Nodup := by
  intro Q
  induction Q with
  | nil => intro D O hnd _; exact hnd
  | cons q rest ih =>
    intro D O hnd hcov
    simp only [smurfScan]
    by_cases hin : pairKey q.r1.id_transacao q.r2.id_transacao ∈ D
    · rw [if_pos hin]
      exact ih D O hnd hcov
    · rw [if_neg hin]
      by_cases hc : smurfCondB q.r1 q.r2 = true
      · rw [if_pos hc]
        refine ih _ _ ?_ ?_
        · rw [List.filterMap_append, List.nodup_append]
          refine ⟨hnd, by simp [smurfIds_mkSmurf], ?_⟩
          intro a ha hb
          simp only [List.filterMap_cons, smurfIds_mkSmurf, List.filterMap_nil] at hb
          rw [List.mem_singleton] at hb
          subst hb
          exact hin (hcov _ ha)
        · intro k hk
          rw [List.filterMap_append] at hk
          rcases List.mem_append.mp hk with h | h
          · exact List.mem_cons_of_mem _ (hcov k h)
          · simp only [List.filterMap_cons, smurfIds_mkSmurf, List.filterMap_nil] at h
            rw [List.mem_singleton] at h
            subst h
            exact List.mem_cons_self _ _
      · rw [if_neg hc]
        exact ih D O hnd hcov

theorem smurfCondB_iff (r1 r2 : Transaction) :
    smurfCondB r1 r2 = true ↔ smurfSpec r1 r2 := by
  simp only [smurfCondB, smurfSpec, Bool.and_eq_true, decide_eq_true_eq, and_assoc]
  constructor
  · rintro ⟨hw1, hw2, hsim, h4, h5, h6, h7, h8⟩
    refine ⟨?_, h4, h5, h6, h7, h8⟩
    rw [jaccard, if_neg (by push_neg; exact ⟨hw1, hw2⟩)]
    exact hsim
  · rintro ⟨hj, h4, h5, h6, h7, h8⟩
    have hne : ¬(wordSet r1.descricao = ∅ ∨ wordSet r2.descricao = ∅) := by
      intro hcon
      rw [jaccard, if_pos hcon] at hj
      norm_num at hj
    push_neg at hne
    rw [jaccard, if_neg (by push_neg; exact hne)] at hj
    exact ⟨hne.1, hne.2, hj, h4, h5, h6, h7, h8⟩

theorem jaccard_comm (a b : Finset String) : jaccard a b = jaccard b a := by
  by_cases h : a = ∅ ∨ b = ∅
  · rw [jaccard, if_pos h, jaccard, if_pos (Or.symm h)]
  · rw [jaccard, if_neg h, jaccard, if_neg (fun hc => h (Or.symm hc))]
    rw [similarity, similarity, Finset.inter_comm, Finset.union_comm]

theorem smurfSpec_symm {t1 t2 : Transaction} (h : smurfSpec t1 t2) : smurfSpec t2 t1 := by
  obtain ⟨hj, ha1, ha2, ha3, ha4, ha5⟩ := h
  refine ⟨by rw [jaccard_comm]; exact hj, ha3, ha4, ha1, ha2, by rw [add_comm]; exact ha5⟩

theorem id_inj {df : List Transaction}
    (hids : (df.map (fun t => t.id_transacao)).Nodup)
    {a b : Transaction} (ha : a ∈ df) (hb : b ∈ df)
    (h : a.id_transacao = b.id_transacao) : a = b :=
  List.inj_on_of_nodup_map hids ha hb h

/-- C2: under distinct transaction ids, for every pair of distinct
same-employee same-date transactions, `_check_smurfing` emits a SMURFING
violation of severity 10 carrying the unordered pair of their ids exactly
when the Jaccard similarity of the case-folded whitespace-tokenised word
sets of their descriptions (0 when either set is empty) is strictly above
0.6, both amounts lie in `[300, 500]`, and the amounts sum strictly above
500; and the rule reports every unordered pair at most once (the emitted
pair keys are pairwise distinct). -/
theorem c2_smurfing_pair_characterization (df : List Transaction)
    (hids : (df.map (fun t => t.id_transacao)).Nodup)
    (t1 t2 : Transaction) (h1 : t1 ∈ df) (h2 : t2 ∈ df)
    (hne : t1.id_transacao ≠ t2.id_transacao)
    (hf : t1.funcionario = t2.funcionario) (hd : t1.data = t2.data) :
    ((∃ v ∈ checkSmurfing df, v.violation_type = "SMURFING" ∧ v.severity = 10 ∧
        smurfIds v = some (pairKey t1.id_transacao t2.id_transacao)) ↔ smurfSpec t1 t2) ∧
    ((checkSmurfing df).filterMap smurfIds).Nodup := by
  constructor
  · constructor
    · rintro ⟨v, hv, _, _, hkey⟩
      rcases smurfScan_out_sub (smurfQuads df) [] [] v hv with h | ⟨q, hq, hc, hveq⟩
      · exact absurd h (List.not_mem_nil v)
      · subst hveq
        rw [smurfIds_mkSmurf] at hkey
        have hkk := Option.some_inj.mp hkey
        obtain ⟨hf1, hf2, hd1, hd2, hr1df, hr2df, _⟩ := quad_mem hq
        have hcspec : smurfSpec q.r1 q.r2 := (smurfCondB_iff _ _).mp hc
        rcases pairKey_eq_unordered hkk with ⟨e1, e2⟩ | ⟨e1, e2⟩
        · have g1 : q.r1 = t1 := id_inj hids hr1df h1 e1
          have g2 : q.r2 = t2 := id_inj hids hr2df h2 e2
          rw [g1, g2] at hcspec
          exact hcspec
        · have g1 : q.r1 = t2 := id_inj hids hr1df h2 e1
          have g2 : q.r2 = t1 := id_inj hids hr2df h1 e2
          rw [g1, g2] at hcspec
          exact smurfSpec_symm hcspec
    · intro hspec
      have hnev : t1 ≠ t2 := fun hc => hne (congrArg (fun t => t.id_transacao) hc)
      have hc12 : smurfCondB t1 t2 = true := (smurfCondB_iff _ _).mpr hspec
      have hc21 : smurfCondB t2 t1 = true := (smurfCondB_iff _ _).mpr (smurfSpec_symm hspec)
      rcases quad_exists h1 h2 hnev hf hd with hq | hq
      · have hk := smurfScan_det_covered (smurfQuads df) [] [] _ hq hc12
        rcases smurfScan_det_to_out (smurfQuads df) [] [] _ hk with h | ⟨v, hv, hid⟩
        · exact absurd h (List.not_mem_nil _)
        · rcases smurfScan_out_sub (smurfQuads df) [] [] v hv with hO | ⟨q2, _, _, hveq⟩
          · exact absurd hO (List.not_mem_nil v)
          · exact ⟨v, hv, by rw [hveq]; rfl, by rw [hveq]; rfl, hid⟩
      · have hk := smurfScan_det_covered (smurfQuads df) [] [] _ hq hc21
        rcases smurfScan_det_to_out (smurfQuads df) [] [] _ hk with h | ⟨v, hv, hid⟩
        · exact absurd h (List.not_mem_nil _)
        · rcases smurfScan_out_sub (smurfQuads df) [] [] v hv with hO | ⟨q2, _, _, hveq⟩
          · exact absurd hO (List.not_mem_nil v)
          · refine ⟨v, hv, by rw [hveq]; rfl, by rw [hveq]; rfl, ?_⟩
            rw [hid, pairKey_comm]
  · exact smurfScan_ids_nodup (smurfQuads df) [] [] (by simp) (by simp)

/-- C2 witness: the 350/400 same-day pair with five of six description
tokens shared is flagged, and the characterization applies to the
two-row table. -/
theorem c2_smurfing_pair_characterization_witness :
    ((exS.map (fun t => t.id_transacao)).Nodup ∧ txS1 ∈ exS ∧ txS2 ∈ exS ∧
      txS1.id_transacao ≠ txS2.id_transacao ∧
      txS1.funcionario = txS2.funcionario ∧ txS1.data = txS2.data) ∧
    (((∃ v ∈ checkSmurfing exS, v.violation_type = "SMURFING" ∧ v.severity = 10 ∧
        smurfIds v = some (pairKey txS1.id_transacao txS2.id_transacao)) ↔
      smurfSpec txS1 txS2) ∧
    ((checkSmurfing exS).filterMap smurfIds).Nodup) :=
  ⟨⟨by with_unfolding_all decide, by with_unfolding_all decide, by with_unfolding_all decide,
    by with_unfolding_all decide, by with_unfolding_all decide, by with_unfolding_all decide⟩,
   c2_smurfing_pair_characterization exS (by with_unfolding_all decide) txS1 txS2
     (by with_unfolding_all decide) (by with_unfolding_all decide)
     (by with_unfolding_all decide) (by with_unfolding_all decide)
     (by with_unfolding_all decide)⟩

/-- C10: every SMURFING violation record is internally consistent: the
stored employee and date equal those of both referenced rows, the stored
individual amounts are the amounts of those rows, the stored total is
their sum and strictly exceeds 500, and the two stored ids are those of
two distinct rows of the corresponding employee-day group. -/
theorem c10_smurf_record_consistent (df : List Transaction) (v : Fraud)
    (hv : v ∈ checkSmurfing df) :
    ∃ (p : SmurfTx) (r1 r2 : Transaction),
      v.tx = FraudTx.pair p ∧
      p.id_1 = r1.id_transacao ∧ p.id_2 = r2.id_transacao ∧
      r1.funcionario = p.funcionario ∧ r2.funcionario = p.funcionario ∧
      r1.data = p.data ∧ r2.data = p.data ∧
      p.valor_1 = r1.valor ∧ p.valor_2 = r2.valor ∧
      p.valor_total = p.valor_1 + p.valor_2 ∧
      (500 : ℚ) < p.valor_total ∧
      [r1, r2].Sublist (dayGroup df p.funcionario p.data) := by
  rcases smurfScan_out_sub (smurfQuads df) [] [] v hv with h | ⟨q, hq, hc, hveq⟩
  · exact absurd h (List.not_mem_nil v)
  · obtain ⟨hf1, hf2, hd1, hd2, _, _, hsub⟩ := quad_mem hq
    obtain ⟨_, _, _, _, _, htotal⟩ := (smurfCondB_iff _ _).mp hc
    subst hveq
    exact ⟨_, q.r1, q.r2, rfl, rfl, rfl, hf1, hf2, hd1, hd2, rfl, rfl, rfl, htotal, hsub⟩

/-- C10 witness: the violation emitted for the witness pair satisfies all
the consistency facts. -/
theorem c10_smurf_record_consistent_witness :
    (mkSmurf "kevin" "2024-06-01" txS1 txS2 ∈ checkSmurfing exS) ∧
    (∃ (p : SmurfTx) (r1 r2 : Transaction),
      (mkSmurf "kevin" "2024-06-01" txS1 txS2).tx = FraudTx.pair p ∧
      p.id_1 = r1.id_transacao ∧ p.id_2 = r2.id_transacao ∧
      r1.funcionario = p.funcionario ∧ r2.funcionario = p.funcionario ∧
      r1.data = p.data ∧ r2.data = p.data ∧
      p.valor_1 = r1.valor ∧ p.valor_2 = r2.valor ∧
      p.valor_total = p.valor_1 + p.valor_2 ∧
      (500 : ℚ) < p.valor_total ∧
      [r1, r2].Sublist (dayGroup exS p.funcionario p.data)) :=
  ⟨by with_unfolding_all decide,
   c10_smurf_record_consistent exS (mkSmurf "kevin" "2024-06-01" txS1 txS2)
     (by with_unfolding_all decide)⟩

theorem loader_chain (pv : String → Option ℚ) (pdt : String → Option String)
    (header : List String) :
    ∀ rows : List (List String),
      (((rows.map (fun r =>
            (r, (getCell header r "valor").bind pv, (getCell header r "data").bind pdt))).filter
          (fun x => x.2.1.isSome && x.2.2.isSome)).filterMap
        (fun x => parseRowR pv pdt header x.1)) =
        rows.filterMap (parseRowR pv pdt header) := by
  intro rows
  induction rows with
  | nil => rfl
  | cons r rest ih =>
    simp only [List.map_cons, List.filter_cons]
    cases hval : (getCell header r "valor").bind pv with
    | none =>
      have hrow : parseRowR pv pdt header r = none := by
        rw [parseRowR, hval]
      simp only [hval, Option.isSome_none, Bool.false_and, Bool.false_eq_true, if_false]
      rw [List.filterMap_cons, hrow, ih]
    | some v =>
      cases hdat : (getCell header r "data").bind pdt with
      | none =>
        have hrow : parseRowR pv pdt header r = none := by
          rw [parseRowR, hval, hdat]
        simp only [hval, hdat, Option.isSome_some, Option.isSome_none, Bool.true_and,
          Bool.false_eq_true, if_false]
        rw [List.filterMap_cons, hrow, ih]
      | some d =>
        simp only [hval, hdat, Option.isSome_some, Bool.true_and, if_true]
        rw [List.filterMap_cons, List.filterMap_cons, ih]

theorem parseRowR_some {pv : String → Option ℚ} {pdt : String → Option String}
    {header row : List String} {t : TransactionR}
    (h : parseRowR pv pdt header row = some t) :
    (getCell header row "valor").bind pv = some t.valor ∧
    (getCell header row "data").bind pdt = some t.data := by
  rw [parseRowR] at h
  cases hval : (getCell header row "valor").bind pv with
  | none => rw [hval] at h; simp at h
  | some v =>
    cases hdat : (getCell header row "data").bind pdt with
    | none => rw [hval, hdat] at h; simp at h
    | some d =>
      rw [hval, hdat] at h
      simp only [Option.some_inj] at h
      subst h
      exact ⟨rfl, rfl⟩

/-- C6: the loader errors out with exactly the missing required columns
when any of `id_transacao, funcionario, data, valor, descricao` is
absent, and any continuation bound after it never runs; otherwise it
returns, in input order with duplicates allowed, precisely the rows whose
amount and date both parse (the others are dropped), and every returned
amount and date is the successful parse of the corresponding cell —
never a silently substituted default. -/
theorem c6_load_transactions (pv : String → Option ℚ) (pdt : String → Option String)
    (csv : CSV) :
    ((∃ c ∈ requiredColumns, csv.header.contains c = false) →
      loadTransactionsR pv pdt csv =
        Except.error (requiredColumns.filter (fun c => !(csv.header.contains c))) ∧
      ∀ k : List TransactionR → Except (List String) (List TransactionR),
        (loadTransactionsR pv pdt csv).bind k =
          Except.error (requiredColumns.filter (fun c => !(csv.header.contains c)))) ∧
    ((∀ c ∈ requiredColumns, csv.header.contains c = true) →
      loadTransactionsR pv pdt csv =
        Except.ok (csv.rows.filterMap (parseRowR pv pdt csv.header))) ∧
    (∀ ts : List TransactionR, loadTransactionsR pv pdt csv = Except.ok ts →
      ∀ t ∈ ts, ∃ row ∈ csv.rows,
        (getCell csv.header row "valor").bind pv = some t.valor ∧
        (getCell csv.header row "data").bind pdt = some t.data) := by
  have hchain := loader_chain pv pdt csv.header csv.rows
  refine ⟨?_, ?_, ?_⟩
  · rintro ⟨c, hc, hfalse⟩
    have hmem : c ∈ requiredColumns.filter (fun c => !(csv.header.contains c)) :=
      List.mem_filter.mpr ⟨hc, by rw [hfalse]; rfl⟩
    have hne : (requiredColumns.filter (fun c => !(csv.header.contains c))).isEmpty = false := by
      cases hm : requiredColumns.filter (fun c => !(csv.header.contains c)) with
      | nil => rw [hm] at hmem; exact absurd hmem (List.not_mem_nil c)
      | cons x xs => rfl
    have herr : loadTransactionsR pv pdt csv =
        Except.error (requiredColumns.filter (fun c => !(csv.header.contains c))) := by
      rw [loadTransactionsR]
      simp only [hne, Bool.false_eq_true, if_false]
    exact ⟨herr, fun k => by rw [herr]; rfl⟩
  · intro hall
    have hnil : requiredColumns.filter (fun c => !(csv.header.contains c)) = [] := by
      rw [List.filter_eq_nil_iff]
      intro c hc
      rw [hall c hc]
      simp
    rw [loadTransactionsR]
    simp only [hnil, List.isEmpty_nil, if_true]
    rw [hchain]
  · intro ts hts t ht
    rw [loadTransactionsR] at hts
    by_cases hemp : (requiredColumns.filter (fun c => !(csv.header.contains c))).isEmpty = true
    · simp only [hemp, if_true, Except.ok.injEq] at hts
      rw [hchain] at hts
      subst hts
      obtain ⟨row, hrow, hparse⟩ := List.mem_filterMap.mp ht
      exact ⟨row, hrow, parseRowR_some hparse⟩
    · simp only [Bool.not_eq_true] at hemp
      simp only [hemp, Bool.false_eq_true, if_false] at hts
      cases hts

/-- C6 witness: on a concrete table the loader keeps the single
well-formed row, dropping the bad-amount and bad-date rows, and on a
table missing two required columns it errors with exactly those
columns. -/
theorem c6_load_transactions_witness :
    ((∀ c ∈ requiredColumns, csvGood.header.contains c = true) ∧
      loadTransactionsR pv0 pd0 csvGood =
        Except.ok (csvGood.rows.filterMap (parseRowR pv0 pd0 csvGood.header))) ∧
    (csvGood.rows.filterMap (parseRowR pv0 pd0 csvGood.header) =
      [{ id_transacao := some "T1", funcionario := some "michael", data := "2024-05-01",
         valor := 100, descricao := some "paper", categoria := none }]) ∧
    ((∃ c ∈ requiredColumns, csvBad.header.contains c = false) ∧
      loadTransactionsR pv0 pd0 csvBad =
        Except.error (requiredColumns.filter (fun c => !(csvBad.header.contains c)))) ∧
    (requiredColumns.filter (fun c => !(csvBad.header.contains c)) = ["valor", "descricao"]) :=
  ⟨⟨by with_unfolding_all decide,
    (c6_load_transactions pv0 pd0 csvGood).2.1 (by with_unfolding_all decide)⟩,
   by with_unfolding_all decide,
   ⟨by with_unfolding_all decide,
    ((c6_load_transactions pv0 pd0 csvBad).1 (by with_unfolding_all decide)).1⟩,
   by with_unfolding_all decide⟩

/-- C9: the safety claim fails in the code — the loader accepts a row
whose `descricao` cell is missing (pandas `NaN`), because rows are
dropped only for unparsable `valor` or `data`, and the prohibited-item
check then raises `AttributeError` on `row['descricao'].lower()` instead
of returning normally. -/
theorem c9_missing_description_crash :
    loadTransactionsR pv0 pd0 csvNaNDesc = Except.ok [tNaN] ∧
    tNaN.descricao = none ∧
    checkProhibitedItemsR [tNaN] = Except.error attrErrMsg ∧
    attrErrMsg = "AttributeError: float object has no attribute lower" :=
  ⟨by with_unfolding_all decide, rfl, rfl, rfl⟩

/-- C8 counterexample: with one suspicious email, a malformed first
collaborator response and a well-formed flagged response available to any
retry, the contextual analysis still makes exactly one collaborator call
and leaves the email unflagged — no retry is ever attempted before the
fallback, so the claim that the call is retried a bounded number of
times before falling back is false of the code. -/
theorem c8_no_retry_counterexample :
    isSuspiciousEmail emailC = true ∧
    parse0 (cleanResponse (oracle0 0)) = none ∧
    parse0 (cleanResponse (oracle0 1)) = some goodJudgment ∧
    goodJudgment.is_fraud.getD false = true ∧
    detectCoordinatedFraud parse0 oracle0 [emailC] = ([], 1) := by
  with_unfolding_all decide

theorem coord_foldl_spec (parse : String → Option ParsedJudgment) (oracle : Nat → String) :
    ∀ (l : List Email) (O : List CFraud) (n : Nat),
      (l.foldl (coordStep parse oracle) (O, n)).2 = n + l.length ∧
      ∀ c ∈ (l.foldl (coordStep parse oracle) (O, n)).1,
        c ∈ O ∨ ∃ i : Nat, ∃ hi : i < l.length, ∃ a : ParsedJudgment,
          parse (cleanResponse (oracle (n + i))) = some a ∧
          a.is_fraud.getD false = true ∧
          c = mkCFraud (l.get ⟨i, hi⟩) a := by
  intro l
  induction l with
  | nil => intro O n; exact ⟨rfl, fun c hc => Or.inl hc⟩
  | cons e rest ih =>
    intro O n
    simp only [List.foldl_cons]
    have hstep : ∀ O2 : List CFraud,
        (coordStep parse oracle (O, n) e = (O2, n + 1)) →
        (O2 = O ∨ ∃ a : ParsedJudgment, parse (cleanResponse (oracle n)) = some a ∧
          a.is_fraud.getD false = true ∧ O2 = O ++ [mkCFraud e a]) := by
      intro O2 hO2
      cases hp : analyzeEmailForFraudCoordination parse (oracle n) with
      | none =>
        simp only [coordStep, hp] at hO2
        exact Or.inl (congrArg Prod.fst hO2).symm
      | some a =>
        simp only [coordStep, hp] at hO2
        by_cases hf : a.is_fraud.getD false = true
        · rw [if_pos hf] at hO2
          exact Or.inr ⟨a, hp, hf, (congrArg Prod.fst hO2).symm⟩
        · rw [if_neg hf] at hO2
          exact Or.inl (congrArg Prod.fst hO2).symm
    have hsnd : (coordStep parse oracle (O, n) e).2 = n + 1 := by
      cases hp : analyzeEmailForFraudCoordination parse (oracle n) with
      | none => simp only [coordStep, hp]
      | some a =>
        simp only [coordStep, hp]
        by_cases hf : a.is_fraud.getD false = true
        · rw [if_pos hf]
        · rw [if_neg hf]
    obtain ⟨O2, hO2⟩ : ∃ O2, coordStep parse oracle (O, n) e = (O2, n + 1) :=
      ⟨(coordStep parse oracle (O, n) e).1, by rw [← hsnd]⟩
    rw [hO2]
    obtain ⟨ihc, ihm⟩ := ih O2 (n + 1)
    refine ⟨by rw [ihc]; simp [List.length_cons]; omega, ?_⟩
    intro c hc
    rcases ihm c hc with hcO | ⟨i, hi, a, hpa, hfa, hca⟩
    · rcases hstep O2 hO2 with h | ⟨a, hpa, hfa, hO2a⟩
      · subst h; exact Or.inl hcO
      · rw [hO2a] at hcO
        rcases List.mem_append.mp hcO with h | h
        · exact Or.inl h
        · rw [List.mem_singleton] at h
          refine Or.inr ⟨0, by simp, a, ?_, hfa, ?_⟩
          · simpa using hpa
          · simpa using h
    · refine Or.inr ⟨i + 1, by simpa using Nat.succ_lt_succ hi, a, ?_, hfa, ?_⟩
      · have : n + (i + 1) = n + 1 + i := by omega
        rw [this]
        exact hpa
      · simpa using hca

/-- C8 (amended): the contextual analysis makes exactly one collaborator
call per analysed email — no retry — and on malformed output for an email
it falls back immediately to treating that email as not flagged; the
failure never propagates: the function is total, processing continues,
and every violation in the output comes from an email whose single
response parsed successfully with a true `is_fraud`. -/
theorem c8_single_call_fallback (parse : String → Option ParsedJudgment)
    (oracle : Nat → String) (emails : List Email) :
    (detectCoordinatedFraud parse oracle emails).2 =
      ((emails.filter isSuspiciousEmail).take 20).length ∧
    ∀ c ∈ (detectCoordinatedFraud parse oracle emails).1,
      ∃ i : Nat, ∃ hi : i < ((emails.filter isSuspiciousEmail).take 20).length,
        ∃ a : ParsedJudgment,
          parse (cleanResponse (oracle i)) = some a ∧
          a.is_fraud.getD false = true ∧
          c = mkCFraud (((emails.filter isSuspiciousEmail).take 20).get ⟨i, hi⟩) a := by
  obtain ⟨hc, hm⟩ := coord_foldl_spec parse oracle ((emails.filter isSuspiciousEmail).take 20) [] 0
  refine ⟨by rw [detectCoordinatedFraud, hc]; omega, ?_⟩
  intro c hcmem
  rcases hm c hcmem with h | ⟨i, hi, a, hpa, hfa, hca⟩
  · exact absurd h (List.not_mem_nil c)
  · exact ⟨i, hi, a, by simpa using hpa, hfa, hca⟩

/-- C8 witness: the single-call count and the flagged-only-output
characterization at the concrete oracle; and with a second suspicious
email following the malformed one, the run still completes, the first
email contributes nothing and the second is flagged. -/
theorem c8_single_call_fallback_witness :
    ((detectCoordinatedFraud parse0 oracle0 [emailC]).2 =
      (([emailC].filter isSuspiciousEmail).take 20).length ∧
    ∀ c ∈ (detectCoordinatedFraud parse0 oracle0 [emailC]).1,
      ∃ i : Nat, ∃ hi : i < (([emailC].filter isSuspiciousEmail).take 20).length,
        ∃ a : ParsedJudgment,
          parse0 (cleanResponse (oracle0 i)) = some a ∧
          a.is_fraud.getD false = true ∧
          c = mkCFraud ((([emailC].filter isSuspiciousEmail).take 20).get ⟨i, hi⟩) a) ∧
    detectCoordinatedFraud parse0 oracle0 [emailC, emailC2] =
      ([mkCFraud emailC2 goodJudgment], 2) :=
  ⟨c8_single_call_fallback parse0 oracle0 [emailC], by with_unfolding_all decide⟩

end Audit
